import Mathlib

/-!
# IFEM: the Integrand contract, global norm reduction and DOF/constraint set-up

A shallow embedding of `src/ASM/Integrand.h` (virtual dispatch made explicit as a
method table with optional overrides), followed by models of `GlbNorm`,
`SAMpatch::init` and `LinearElasticity::evalInt`, and by embeddings of
`SIM::setInitialConditions` and of the class template `SIMCoupled`.
-/

namespace IFEM

/-! ## `src/ASM/Integrand.h`

The header only forward-declares `LocalIntegral`, `FiniteElement`,
`MxFiniteElement`, `TimeDomain` and `Vec3`; they are type parameters here
(`LI`, `FE`, `MxFE`, `TD`, `V3`).  `S` is the type of the data members of the
concrete integrand object (`*this`).  A method taking `LocalIntegral&` returns
the new state of that accumulator next to its `bool` result. -/

/-- Values of `enum Integrand::Traits`. -/
inductive Traits where
  | STANDARD
  | SECOND_DERIVATIVES
  | AVERAGE
  | ELEMENT_CORNERS
  | G_MATRIX
  | ELEMENT_CENTER
  | XO_ELEMENTS
  deriving DecidableEq, Repr

/-- The enumerator constants of `Integrand::Traits` (all lie in `0..32`, so the
`int` bit operations of C++ agree with those on `Nat`). -/
def Traits.val : Traits → Nat
  | .STANDARD => 0
  | .SECOND_DERIVATIVES => 1
  | .AVERAGE => 2
  | .ELEMENT_CORNERS => 4
  | .G_MATRIX => 8
  | .ELEMENT_CENTER => 16
  | .XO_ELEMENTS => 32

/-- Bitwise OR of a collection of trait flags, as an integrand builds its
`getIntegrandType` result (`A | B | ...`). -/
def Traits.mask (fs : List Traits) : Nat :=
  fs.foldl (fun m f => m ||| f.val) 0

/-- The driver's test `type & FLAG`. -/
def Traits.requested (type : Nat) (f : Traits) : Bool :=
  type &&& f.val != 0

/-- The virtual-method table of a class derived from `Integrand`.
The single-basis `getLocalIntegral` is pure virtual, so every concrete class
supplies it.  Every other slot is `none` when the class does not override the
method, in which case the body written in `Integrand.h` runs. -/
structure Integrand (S LI FE MxFE TD V3 : Type) where
  /-- Pure virtual `getLocalIntegral(nen,iEl,neumann)`; `none` is a null pointer. -/
  getLocalIntegral1 : S → Nat → Nat → Bool → Option LI
  /-- Override of `getLocalIntegral(nen1,nen2,iEl,neumann)`. -/
  getLocalIntegral2 : Option (S → Nat → Nat → Nat → Bool → Option LI) := none
  /-- Override of `getIntegrandType()`. -/
  getIntegrandTypeOv : Option (S → Int) := none
  /-- Override of `reducedInt(elmInt,fe,X)`. -/
  reducedIntOv : Option (S → LI → FE → V3 → Bool × LI) := none
  /-- Override of `evalInt(elmInt,fe,time,X)`. -/
  evalIntTimeOv : Option (S → LI → FE → TD → V3 → Bool × LI) := none
  /-- Override of `evalIntMx(elmInt,fe,time,X)`. -/
  evalIntMxTimeOv : Option (S → LI → MxFE → TD → V3 → Bool × LI) := none
  /-- Override of the non-const `finalizeElement(elmInt,time,iGP)`. -/
  finalizeElementOv : Option (S → LI → TD → Nat → Bool × S × LI) := none
  /-- Override of `evalBou(elmInt,fe,time,X,normal)`. -/
  evalBouTimeOv : Option (S → LI → FE → TD → V3 → V3 → Bool × LI) := none
  /-- Override of `evalBouMx(elmInt,fe,time,X,normal)`. -/
  evalBouMxTimeOv : Option (S → LI → MxFE → TD → V3 → V3 → Bool × LI) := none
  /-- Override of the protected stationary `evalInt(elmInt,fe,X)`. -/
  evalIntStatOv : Option (S → LI → FE → V3 → Bool × LI) := none
  /-- Override of the protected stationary `evalIntMx(elmInt,fe,X)`. -/
  evalIntMxStatOv : Option (S → LI → MxFE → V3 → Bool × LI) := none
  /-- Override of the protected stationary `evalBou(elmInt,fe,X,normal)`. -/
  evalBouStatOv : Option (S → LI → FE → V3 → V3 → Bool × LI) := none
  /-- Override of the protected stationary `evalBouMx(elmInt,fe,X,normal)`. -/
  evalBouMxStatOv : Option (S → LI → MxFE → V3 → V3 → Bool × LI) := none

namespace Integrand

variable {S LI FE MxFE TD V3 : Type}

/-- Virtual call `this->getLocalIntegral(nen,iEl,neumann)`. -/
def getLocalIntegral (I : Integrand S LI FE MxFE TD V3) (self : S)
    (nen iEl : Nat) (neumann : Bool) : Option LI :=
  I.getLocalIntegral1 self nen iEl neumann

/-- Virtual call `this->getLocalIntegral(nen1,nen2,iEl,neumann)`; the base body
is `return this->getLocalIntegral(nen1,iEl,neumann);`. -/
def getLocalIntegralMx (I : Integrand S LI FE MxFE TD V3) (self : S)
    (nen1 nen2 iEl : Nat) (neumann : Bool) : Option LI :=
  match I.getLocalIntegral2 with
  | some f => f self nen1 nen2 iEl neumann
  | none => I.getLocalIntegral self nen1 iEl neumann

/-- Virtual call `this->getIntegrandType()`; base body `return STANDARD;`. -/
def getIntegrandType (I : Integrand S LI FE MxFE TD V3) (self : S) : Int :=
  match I.getIntegrandTypeOv with
  | some f => f self
  | none => (Traits.STANDARD.val : Int)

/-- Virtual call `this->reducedInt(elmInt,fe,X)`; base body `return false;`. -/
def reducedInt (I : Integrand S LI FE MxFE TD V3) (self : S)
    (elmInt : LI) (fe : FE) (X : V3) : Bool × LI :=
  match I.reducedIntOv with
  | some f => f self elmInt fe X
  | none => (false, elmInt)

/-- Virtual call of the stationary `this->evalInt(elmInt,fe,X)`; base body
`return false;`. -/
def evalIntStat (I : Integrand S LI FE MxFE TD V3) (self : S)
    (elmInt : LI) (fe : FE) (X : V3) : Bool × LI :=
  match I.evalIntStatOv with
  | some f => f self elmInt fe X
  | none => (false, elmInt)

/-- Virtual call of the stationary `this->evalIntMx(elmInt,fe,X)`; base body
`return false;`. -/
def evalIntMxStat (I : Integrand S LI FE MxFE TD V3) (self : S)
    (elmInt : LI) (fe : MxFE) (X : V3) : Bool × LI :=
  match I.evalIntMxStatOv with
  | some f => f self elmInt fe X
  | none => (false, elmInt)

/-- Virtual call of the stationary `this->evalBou(elmInt,fe,X,normal)`; base
body `return false;`. -/
def evalBouStat (I : Integrand S LI FE MxFE TD V3) (self : S)
    (elmInt : LI) (fe : FE) (X normal : V3) : Bool × LI :=
  match I.evalBouStatOv with
  | some f => f self elmInt fe X normal
  | none => (false, elmInt)

/-- Virtual call of the stationary `this->evalBouMx(elmInt,fe,X,normal)`; base
body `return false;`. -/
def evalBouMxStat (I : Integrand S LI FE MxFE TD V3) (self : S)
    (elmInt : LI) (fe : MxFE) (X normal : V3) : Bool × LI :=
  match I.evalBouMxStatOv with
  | some f => f self elmInt fe X normal
  | none => (false, elmInt)

/-- Virtual call `this->evalInt(elmInt,fe,time,X)`; base body
`return this->evalInt(elmInt,fe,X);`. -/
def evalInt (I : Integrand S LI FE MxFE TD V3) (self : S)
    (elmInt : LI) (fe : FE) (time : TD) (X : V3) : Bool × LI :=
  match I.evalIntTimeOv with
  | some f => f self elmInt fe time X
  | none => I.evalIntStat self elmInt fe X

/-- Virtual call `this->evalIntMx(elmInt,fe,time,X)`; base body
`return this->evalIntMx(elmInt,fe,X);`. -/
def evalIntMx (I : Integrand S LI FE MxFE TD V3) (self : S)
    (elmInt : LI) (fe : MxFE) (time : TD) (X : V3) : Bool × LI :=
  match I.evalIntMxTimeOv with
  | some f => f self elmInt fe time X
  | none => I.evalIntMxStat self elmInt fe X

/-- Virtual call `this->finalizeElement(elmInt,time,iGP)`; base body
`return true;`.  The method is not const, so the object state is returned too. -/
def finalizeElement (I : Integrand S LI FE MxFE TD V3) (self : S)
    (elmInt : LI) (time : TD) (iGP : Nat) : Bool × S × LI :=
  match I.finalizeElementOv with
  | some f => f self elmInt time iGP
  | none => (true, self, elmInt)

/-- Virtual call `this->evalBou(elmInt,fe,time,X,normal)`; base body
`return this->evalBou(elmInt,fe,X,normal);`. -/
def evalBou (I : Integrand S LI FE MxFE TD V3) (self : S)
    (elmInt : LI) (fe : FE) (time : TD) (X normal : V3) : Bool × LI :=
  match I.evalBouTimeOv with
  | some f => f self elmInt fe time X normal
  | none => I.evalBouStat self elmInt fe X normal

/-- Virtual call `this->evalBouMx(elmInt,fe,time,X,normal)`; base body
`return this->evalBouMx(elmInt,fe,X,normal);`. -/
def evalBouMx (I : Integrand S LI FE MxFE TD V3) (self : S)
    (elmInt : LI) (fe : MxFE) (time : TD) (X normal : V3) : Bool × LI :=
  match I.evalBouMxTimeOv with
  | some f => f self elmInt fe time X normal
  | none => I.evalBouMxStat self elmInt fe X normal

end Integrand

/-- A sample stationary integrand over integer data: the accumulator is an
`Int`, the object holds a scale factor, `evalInt` adds `scale * fe + X` and
succeeds when `fe` is non-negative, `evalBou` adds `scale * normal`.  Only the
stationary evaluators and the pure virtual `getLocalIntegral` are supplied. -/
def sampleStationary : Integrand Int Int Int (Int × Int) Nat Int where
  getLocalIntegral1 := fun _ nen iEl neumann =>
    if nen = 0 then none else some (if neumann then -(iEl : Int) else iEl)
  evalIntStatOv := some (fun scale acc fe X => (decide (0 ≤ fe), acc + scale * fe + X))
  evalBouStatOv := some (fun scale acc _ _ normal => (true, acc + scale * normal))
  evalIntMxStatOv := some (fun scale acc fe X => (true, acc + scale * (fe.1 + fe.2) + X))
  evalBouMxStatOv := some (fun scale acc fe _ normal =>
    (decide (fe.1 ≤ fe.2), acc + scale * normal))

/-! ## `src/ASM/GlbNorm.h`

Only the class declaration is among the sources; `GlbNorm.C`, `ASMenums.h`
and `MatVec.h` are not.  The bodies below follow the specification
(sections 3 and 4.2).  Norm values (`double`) are exact rationals here, so
rounding is outside the model; `sqrt` is `Rat.sqrt`, which is the exact root on
every square of a rational. -/

/-- Modelled from the spec: the enumeration `ASM::FinalNormOp` of the absent
`ASMenums.h`, the "configured finalizing operation (none, absolute value,
square root)". -/
inductive FinalNormOp where
  | NONE
  | ABS
  | SQRT
  deriving DecidableEq, Repr

/-- The state of a `GlbNorm` object: `myVals` stands for the referenced
`Vectors` (one or more norm-value containers), `myOp` for the operation to be
performed on the summed values. -/
structure GlbNorm where
  myVals : List (List ℚ)
  myOp : FinalNormOp
  deriving DecidableEq, Repr

namespace GlbNorm

/-- Modelled from the spec: the body of `GlbNorm::applyFinalOp` (absent
`GlbNorm.C`), applying the finalizing operation to one value. -/
def applyFinalOp (op : FinalNormOp) (value : ℚ) : ℚ :=
  match op with
  | .NONE => value
  | .ABS => |value|
  | .SQRT => Rat.sqrt value

/-- The constructor `GlbNorm(vec,op)`: it stores the reference and the
operation. -/
def create (vec : List (List ℚ)) (op : FinalNormOp) : GlbNorm :=
  { myVals := vec, myOp := op }

/-- The constructor with its default argument `op = ASM::NONE`. -/
def createDefault (vec : List (List ℚ)) : GlbNorm :=
  create vec .NONE

/-- Adds the leading element values to the slots of one container, slot by
slot; returns the updated container and the element values left over for
the next container. -/
def addSlots : List ℚ → List ℚ → List ℚ × List ℚ
  | [], es => ([], es)
  | g :: gs, [] => (g :: gs, [])
  | g :: gs, e :: es => ((g + e) :: (addSlots gs es).1, (addSlots gs es).2)

/-- Adds the element values into the matching global slots: element slot `i`
goes to the `i`-th slot counted through the containers in order; element
values beyond the last global slot are not stored. -/
def addVectors : List (List ℚ) → List ℚ → List (List ℚ)
  | [], _ => []
  | v :: vs, es => (addSlots v es).1 :: addVectors vs (addSlots v es).2

/-- Modelled from the spec: the body of `GlbNorm::assemble(elmObj,elmId)`
(absent `GlbNorm.C`): "adds the element's partial norm values into the matching
global slots -- pure summation"; the finalizing operation is not applied here.
`elmObj` is the list of norm values of the element. -/
def assemble (g : GlbNorm) (elmObj : List ℚ) (_elmId : Int) : Bool × GlbNorm :=
  (true, { g with myVals := addVectors g.myVals elmObj })

/-- One assembly pass: `assemble` called for each element in the given order. -/
def assembleAll (g : GlbNorm) (elms : List (List ℚ × Int)) : GlbNorm :=
  elms.foldl (fun acc e => (assemble acc e.1 e.2).2) g

/-- Modelled from the spec: the destructor `~GlbNorm()` (absent `GlbNorm.C`),
which "applies the operation myOp on myVals"; the result is the content of the
referenced containers after the object is gone. -/
def destroy (g : GlbNorm) : List (List ℚ) :=
  g.myVals.map (fun v => v.map (applyFinalOp g.myOp))

end GlbNorm

/-! ## `src/ASM/SAMpatch.h`

Only the class declaration is among the sources; `SAMpatch.C`, `SAM.h`,
`ASMbase.h` and the constraint classes are not.  The model follows sections 3
and 4.3 of the specification. -/

/-- Modelled from the spec: the status of a DOF (absent `SAM.h`): "free,
prescribed (fixed value), or constrained (slave of a constraint equation)". -/
inductive DofStatus where
  | free
  | prescribed
  | constrained
  deriving DecidableEq, Repr

/-- A DOF named by the identity of its node and its component (1-based). -/
abbrev DofRef := Nat × Nat

/-- Modelled from the spec: a constraint equation (absent constraint classes),
"an affine relation `dof = c0 + sum w_i * dof_i`". -/
structure MPC where
  slave : DofRef
  c0 : ℚ
  masters : List (DofRef × ℚ)
  deriving DecidableEq, Repr

/-- Modelled from the spec: a patch (absent `ASMbase.h`), "an externally-owned
mesh partition with its own local node numbering".  `nodes` lists, by local
index, the identity of each node and its number of solution components;
`elements` lists for each element its local node indices (0-based); `fixed` are
the DOFs with a prescribed value; `mpcs` are the constraint equations. -/
structure ASMbase where
  nodes : List (Nat × Nat)
  elements : List (List Nat)
  fixed : List DofRef
  mpcs : List MPC
  deriving DecidableEq, Repr

/-- Modelled from the spec: the tables of the absent base class `SAM` that
`SAMpatch::init` fills.  `minex` is the global node numbering (position `i`
holds the identity of global node `i+1`), `madof` the first DOF of every node
followed by one past the last DOF, `msc` the status of every DOF, `mmnpc` the
element-to-global-DOF topology, `ceqs` the constraint-equation tables in global
DOF numbers (slave, constant term, masters with weights). -/
structure SAM where
  minex : List Nat
  madof : List Nat
  msc : List DofStatus
  mmnpc : List (List Nat)
  ceqs : List (Nat × ℚ × List (Nat × ℚ))
  deriving DecidableEq, Repr

namespace SAMpatch

/-- A `SAM` object with no arrays allocated. -/
def empty : SAM :=
  { minex := [], madof := [], msc := [], mmnpc := [], ceqs := [] }

/-- All constraint equations of the model, by patch and then by position. -/
def allMPCs (model : List ASMbase) : List MPC :=
  model.flatMap (fun p => p.mpcs)

/-- Merges the local node numberings into one deduplicated node list, in the
order "by patch, then local index": a node is appended the first time its
identity is met. -/
def mergeNodes (model : List ASMbase) : List (Nat × Nat) :=
  (model.flatMap (fun p => p.nodes)).foldl
    (fun acc n => if acc.any (fun m => m.1 == n.1) then acc else acc ++ [n]) []

/-- First DOF of every node (1-based, contiguous blocks), followed by one past
the last DOF. -/
def dofStarts : Nat → List Nat → List Nat
  | start, [] => [start]
  | start, n :: ns => start :: dofStarts (start + n) ns

/-- The status of one DOF. -/
def statusOf (model : List ASMbase) (d : DofRef) : DofStatus :=
  if (allMPCs model).any (fun c => c.slave == d) then .constrained
  else if model.any (fun p => p.fixed.contains d) then .prescribed
  else .free

/-- The step `initNodeDofs`: node numbering, DOF blocks and DOF status. -/
def initNodeDofs (sam : SAM) (model : List ASMbase) : Bool × SAM :=
  let merged := mergeNodes model
  (true, { sam with
    minex := merged.map (fun n => n.1)
    madof := dofStarts 1 (merged.map (fun n => n.2))
    msc := merged.flatMap (fun n =>
      (List.range n.2).map (fun k => statusOf model (n.1, k + 1))) })

/-- The global DOF numbers of the node with the given identity; `none` when
the node is not in the numbering. -/
def nodeDofs (sam : SAM) (node : Nat) : Option (List Nat) :=
  let i := sam.minex.indexOf node
  match sam.madof[i]?, sam.madof[i + 1]? with
  | some a, some b => some ((List.range (b - a)).map (fun k => a + k))
  | _, _ => none

/-- The global number of a DOF; `none` when the node or the component is out
of range. -/
def dofOf (sam : SAM) (d : DofRef) : Option Nat :=
  match nodeDofs sam d.1 with
  | some ds => if d.2 = 0 then none else ds[d.2 - 1]?
  | none => none

/-- The global DOFs of one element of a patch; `none` when the element
references an out-of-range local node. -/
def elementDofs (sam : SAM) (p : ASMbase) (elm : List Nat) : Option (List Nat) :=
  (elm.mapM (fun i => (p.nodes[i]?).bind (fun n => nodeDofs sam n.1))).map List.flatten

/-- The step `initElementConn`: the element topology of every element of every
patch; fails when a topology references an out-of-range node. -/
def initElementConn (sam : SAM) (model : List ASMbase) : Bool × SAM :=
  match (model.flatMap (fun p => p.elements.map (fun e => elementDofs sam p e))).mapM id with
  | some topo => (true, { sam with mmnpc := topo })
  | none => (false, sam)

/-- One round of the cycle test: the constraints that still have a master which
is the slave of a remaining constraint. -/
def dependentOnes (cs : List MPC) : List MPC :=
  cs.filter (fun c => c.masters.any (fun m => cs.any (fun c2 => c2.slave == m.1)))

/-- Repeated rounds: constraints whose masters are all independent of the
remaining constraints are resolved and dropped. -/
def eliminate : Nat → List MPC → List MPC
  | 0, cs => cs
  | n + 1, cs => eliminate n (dependentOnes cs)

/-- The constraint dependency graph has no cycle: after as many rounds as there
are constraints, none is left. -/
def acyclic (cs : List MPC) : Bool :=
  (eliminate cs.length cs).isEmpty

/-- One constraint equation in global DOF numbers. -/
def resolveMPC (sam : SAM) (c : MPC) : Option (Nat × ℚ × List (Nat × ℚ)) :=
  match dofOf sam c.slave, c.masters.mapM (fun m => (dofOf sam m.1).map (fun d => (d, m.2))) with
  | some s, some ms => some (s, c.c0, ms)
  | _, _ => none

/-- The step `initConstraintEqs`: the constraint-equation tables; fails when the
constraint graph contains a cycle or a constraint names a DOF that does not
exist. -/
def initConstraintEqs (sam : SAM) (model : List ASMbase) : Bool × SAM :=
  if acyclic (allMPCs model) then
    match (allMPCs model).mapM (resolveMPC sam) with
    | some eqs => (true, { sam with ceqs := eqs })
    | none => (false, sam)
  else (false, sam)

/-- Modelled from the spec: the body of `SAMpatch::init(model,numNod)` (absent
`SAMpatch.C`): allocates the arrays anew and populates them through
`initNodeDofs`, `initElementConn` and `initConstraintEqs`, stopping with
failure at the first step that fails.  `numNod` is the caller's node-count
hint. -/
def init (_sam : SAM) (model : List ASMbase) (_numNod : Nat) : Bool × SAM :=
  let r1 := initNodeDofs empty model
  if r1.1 then
    let r2 := initElementConn r1.2 model
    if r2.1 then initConstraintEqs r2.2 model
    else (false, r2.2)
  else (false, r1.2)

/-- The constraint dependency graph of a model: DOF `a` depends on DOF `b` when
some constraint equation has slave `a` and `b` among its masters. -/
def Depends (model : List ASMbase) (a b : DofRef) : Prop :=
  ∃ c ∈ allMPCs model, c.slave = a ∧ b ∈ c.masters.map (fun m => m.1)

/-- The constraint dependency graph contains a cycle: some DOF transitively
depends on itself. -/
def HasCycle (model : List ASMbase) : Prop :=
  ∃ d, Relation.TransGen (Depends model) d d

/-- A two-node patch whose constraints are cyclic: DOF (1,1) depends on (2,1)
and (2,1) depends on (1,1). -/
def cyclicPatch : ASMbase :=
  { nodes := [(1, 2), (2, 2)]
    elements := [[0, 1]]
    fixed := []
    mpcs := [ { slave := (1, 1), c0 := 0, masters := [((2, 1), 1)] },
              { slave := (2, 1), c0 := 0, masters := [((1, 1), 1)] } ] }

/-- Two patches sharing node 2, with a chain of constraints without a cycle:
(3,1) depends on (2,1), which depends on (1,1); DOF (1,2) is prescribed. -/
def chainModel : List ASMbase :=
  [ { nodes := [(1, 2), (2, 2)]
      elements := [[0, 1]]
      fixed := [(1, 2)]
      mpcs := [ { slave := (2, 1), c0 := 1 / 2, masters := [((1, 1), 2)] } ] },
    { nodes := [(2, 2), (3, 2)]
      elements := [[1, 0]]
      fixed := []
      mpcs := [ { slave := (3, 1), c0 := 0, masters := [((2, 1), 1), ((1, 1), 3)] } ] } ]

end SAMpatch

/-! ## `src/Integrands/LinearElasticity.h`

Only the class declaration is among the sources; `LinearElasticity.C` and the
parent class `Elasticity` are not.  The body of `evalInt` follows the
specification (section 4.4).  Matrices of `double` are matrices of exact
rationals; `m` is the number of strain components and `n` the number of element
DOFs. -/

/-- The members of a `LinearElasticity` object that `evalInt` uses.  The two
functions stand for the absent methods of the parent class `Elasticity`:
`formBmatrix` gives the strain-displacement operator `B` "derived from basis
gradients", `formCmatrix` the elastic tensor `C` at a point; `CB` is the mutable
work array declared in the header. -/
structure LinearElasticity (m n : Nat) (DN V3 : Type) where
  formBmatrix : DN → Matrix (Fin m) (Fin n) ℚ
  formCmatrix : V3 → Matrix (Fin m) (Fin m) ℚ
  CB : Matrix (Fin m) (Fin n) ℚ

namespace LinearElasticity

variable {m n : Nat} {DN V3 VN : Type}

/-- Modelled from the spec: the body of `LinearElasticity::evalInt(elmInt,
detJW,N,dNdX,X)` (absent `LinearElasticity.C`): it "forms the elementary
stiffness contribution as `B^t*C*B*detJ*weight`", with the product `C*B` kept in
the work matrix `CB`, and adds it to the element stiffness matrix `EK` held by
`elmInt`.  Returns the flag, the object with its work array, and `EK`. -/
def evalInt (self : LinearElasticity m n DN V3) (EK : Matrix (Fin n) (Fin n) ℚ)
    (detJW : ℚ) (_N : VN) (dNdX : DN) (X : V3) :
    Bool × LinearElasticity m n DN V3 × Matrix (Fin n) (Fin n) ℚ :=
  let B := self.formBmatrix dNdX
  let CB := self.formCmatrix X * B
  (true, { self with CB := CB }, EK + detJW • (B.transpose * CB))

/-- The sequence for one element: a fresh accumulator (zero stiffness matrix),
one `evalInt` call per integration point, and the default `finalizeElement`,
which changes nothing.  Returns the object and the element stiffness matrix. -/
def integrateElement (self : LinearElasticity m n DN V3) (points : List (ℚ × VN × DN × V3)) :
    LinearElasticity m n DN V3 × Matrix (Fin n) (Fin n) ℚ :=
  points.foldl (fun st pt => (evalInt st.1 st.2 pt.1 pt.2.1 pt.2.2.1 pt.2.2.2).2) (self, 0)

/-- The contribution of one integration point as the specification writes it,
`B^t * C * B * detJ * weight`, for comparison with what `evalInt` adds. -/
def contribution (self : LinearElasticity m n DN V3) (pt : ℚ × VN × DN × V3) :
    Matrix (Fin n) (Fin n) ℚ :=
  pt.1 • ((self.formBmatrix pt.2.2.1).transpose * self.formCmatrix pt.2.2.2 *
    self.formBmatrix pt.2.2.1)

/-- A sample with two strain components and two element DOFs: `B` is the
gradient data itself and `C` is a symmetric tensor. -/
def sample : LinearElasticity 2 2 (Matrix (Fin 2) (Fin 2) ℚ) Unit where
  formBmatrix := fun d => d
  formCmatrix := fun _ => !![2, 1; 1, 3]
  CB := 0

end LinearElasticity

/-! ## `src/SIM/InitialConditionHandler.C`

The function `SIM::setInitialConditions` is translated from the source.  The
classes it works on (`SIMbase`, `SIMdependency`, `XMLWriter`, `HDF5Writer`,
`ASMbase`) are declared in headers that are not among the sources, so what the
function uses of them is a field or a function parameter below.  `P` is the type
of a patch (`ASMbase`), `F` of a field handle (`utl::vector<double>*`), `V` of a
vector of values. -/

namespace SIM

/-- `SIMdependency::ICInfo`: the members the function reads.  The levels are
`int` in the source; a well-formed value lies in `-2147483648 .. 2147483647`,
and arithmetic on them goes through `wrapInt32`. -/
structure ICInfo where
  sim_level : Int
  file_level : Int
  sim_field : String
  file_field : String
  deriving DecidableEq, Repr

/-- `XMLWriter::Entry`: the members the function reads. -/
structure Entry where
  name : String
  basis : String
  patches : Int
  components : Int
  deriving DecidableEq, Repr

/-- What `XMLWriter xmlreader(file)` after `readInfo()` and
`HDF5Writer hdf5reader(file,true)` deliver for one input file. -/
structure FileReaders (V : Type) where
  /-- Result of `xmlreader.getEntries()`. -/
  getEntries : List Entry
  /-- Result of `hdf5reader.readString(path,out)`: the string read. -/
  readString : String → String
  /-- Result of `hdf5reader.readVector(level,field,patch,out)`: the vector read. -/
  readVector : Int → String → Int → V

/-- `SIMdependency`: the one method the function calls; `none` is a null
pointer. -/
structure SIMdependency (F : Type) where
  getField : String → Option F

/-- `SIMbase`: what the function uses of the simulator.  `dep` is its
`SIMdependency` base, `getICs` the initial-condition map as the (file name,
conditions) pairs in iteration order, `readPatch` returns `none` for a null
pointer. -/
structure SIMbase (P F : Type) where
  dep : SIMdependency F
  getICs : List (String × List ICInfo)
  readPatch : String → Int → Option P
  getLocalPatchIndex : Int → Int
  getFEModel : List P

/-- The collaborators outside the simulator: the readers opened on a file name,
and `ASMbase::evaluate(basisPatch,loc,newloc)` as a function giving `newloc`. -/
structure Env (P V : Type) where
  openFile : String → FileReaders V
  evaluate : P → P → V → V

/-- One pass of the body of the loop over patches that is not skipped: the two
indexings `sim.getFEModel()[p-1]` and `basis[entry.basis][p-1]` (each `none`
when position `p-1` does not exist), and the vector handed to `injectNodeVec`
for `field` (`none` when an indexing was out of range). -/
structure PatchAccess (P F V : Type) where
  patch : Int
  p : Int
  field : F
  fe : Option P
  basisPatch : Option P
  newloc : Option V
  components : Int

/-- How a call ends.  `returned result log`: the function returned `result`
after the patch accesses `log`, all in range.  `outOfRange log`: the last access
of `log` was an out-of-range `operator[]`; the behaviour of the C++ code is
undefined from there and nothing is returned. -/
inductive Outcome (α : Type) where
  | returned (result : Bool) (log : List α)
  | outOfRange (log : List α)

/-- The patch accesses made, in order. -/
def Outcome.log {α : Type} : Outcome α → List α
  | .returned _ l => l
  | .outOfRange l => l

/-- The value returned; `none` when the call does not return. -/
def Outcome.flag {α : Type} : Outcome α → Option Bool
  | .returned b _ => some b
  | .outOfRange _ => none

/-- The outcome of a continuation that runs after the accesses `l`. -/
def Outcome.prepend {α : Type} (l : List α) : Outcome α → Outcome α
  | .returned b l2 => .returned b (l ++ l2)
  | .outOfRange l2 => .outOfRange (l ++ l2)

variable {P F V : Type}

/-- Both indexings of the access were in range. -/
def PatchAccess.inRange (a : PatchAccess P F V) : Bool :=
  a.fe.isSome && a.basisPatch.isSome

/-- The value an `int` holds for the arithmetic result `x`: reduction to 32 bits
in two's complement.  It is `x` itself when `x` is representable; on signed
overflow (undefined in C++) it is the wrapped value the compiled code
produces. -/
def wrapInt32 (x : Int) : Int :=
  (x + 2147483648) % 4294967296 - 2147483648

/-- The name of the target field: `str << sim_field; str << -sim_level+1;`,
the negation and the addition being done in `int`. -/
def fieldName (ic : ICInfo) : String :=
  ic.sim_field ++ toString (wrapInt32 (wrapInt32 (-ic.sim_level) + 1))

/-- The object the lookup is made on: `if (!fieldHolder) fieldHolder = &sim;`. -/
def holder (sim : SIMbase P F) (fieldHolder : Option (SIMdependency F)) : SIMdependency F :=
  match fieldHolder with
  | some h => h
  | none => sim.dep

/-- The lookup `fieldHolder->getField(str.str())`. -/
def targetField (sim : SIMbase P F) (fieldHolder : Option (SIMdependency F))
    (ic : ICInfo) : Option F :=
  (holder sim fieldHolder).getField (fieldName ic)

/-- The search for the entry in the XML description: the first entry whose name
equals `file_field`; `none` when `it3` reaches `getEntries().end()`. -/
def findEntry (entries : List Entry) (ic : ICInfo) : Option Entry :=
  entries.find? (fun e => e.name == ic.file_field)

/-- The dataset path `file_level/basis/<basis>/<i+1>`. -/
def basisPath (ic : ICInfo) (e : Entry) (i : Nat) : String :=
  toString ic.file_level ++ "/basis/" ++ e.basis ++ "/" ++ toString ((i : Int) + 1)

/-- The block "load basis": the patches read for `i = 0 .. patches-1`, keeping
only those for which `readPatch` returned a non-null pointer. -/
def loadBasis (sim : SIMbase P F) (rd : FileReaders V) (ic : ICInfo) (e : Entry) : List P :=
  (List.range e.patches.toNat).filterMap
    (fun i => sim.readPatch (rd.readString (basisPath ic e i)) i)

/-- The loop over patches for the indices `is`: a patch with local index
`p < 1` is skipped, every other one is evaluated and injected.  The loop stops
at the first access that is out of range, which is then the last of the
list. -/
def evalPatches (env : Env P V) (sim : SIMbase P F) (rd : FileReaders V) (ic : ICInfo)
    (e : Entry) (field : F) (vec : List P) : List Nat → List (PatchAccess P F V)
  | [] => []
  | i :: rest =>
    let p := sim.getLocalPatchIndex ((i : Int) + 1)
    if p < 1 then evalPatches env sim rd ic e field vec rest
    else
      let fe := sim.getFEModel[(p - 1).toNat]?
      let b := vec[(p - 1).toNat]?
      let loc := rd.readVector ic.file_level ic.file_field ((i : Int) + 1)
      let a : PatchAccess P F V :=
        { patch := (i : Int) + 1, p := p, field := field, fe := fe, basisPatch := b,
          newloc := fe.bind (fun f => b.map (fun bp => env.evaluate f bp loc)),
          components := e.components }
      if a.inRange then a :: evalPatches env sim rd ic e field vec rest
      else [a]

/-- The statement `if (basis.find(entry.basis) == basis.end()) {...}`: the map
from basis name to loaded patches after it. -/
def loadBasisIfAbsent (sim : SIMbase P F) (rd : FileReaders V) (ic : ICInfo) (e : Entry)
    (basis : List (String × List P)) : List (String × List P) :=
  if (basis.lookup e.basis).isNone then (e.basis, loadBasis sim rd ic e) :: basis
  else basis

/-- The whole loop over patches for one initial condition: `evalPatches` for
`i = 0 .. patches-1` on the list `basis[entry.basis]`. -/
def entryAccesses (env : Env P V) (sim : SIMbase P F) (rd : FileReaders V) (ic : ICInfo)
    (e : Entry) (field : F) (basis : List (String × List P)) : List (PatchAccess P F V) :=
  evalPatches env sim rd ic e field ((basis.lookup e.basis).getD [])
    (List.range e.patches.toNat)

/-- The loop over the initial conditions of one file.  `basis` is the local
map from basis name to loaded patches.  The outcome is `returned false` when
the loop executed `return false`, `returned true` when it ran to its end, and
`outOfRange` when a patch access was out of range. -/
def loopICs (env : Env P V) (sim : SIMbase P F) (fieldHolder : Option (SIMdependency F))
    (rd : FileReaders V) :
    List (String × List P) → List ICInfo → Outcome (PatchAccess P F V)
  | _, [] => .returned true []
  | basis, ic :: rest =>
    match targetField sim fieldHolder ic with
    | none => loopICs env sim fieldHolder rd basis rest
    | some field =>
      match findEntry rd.getEntries ic with
      | none => .returned false []
      | some e =>
        let basis2 := loadBasisIfAbsent sim rd ic e basis
        let log := entryAccesses env sim rd ic e field basis2
        if log.all PatchAccess.inRange then
          (loopICs env sim fieldHolder rd basis2 rest).prepend log
        else .outOfRange log

/-- The loop over the input files. -/
def loopFiles (env : Env P V) (sim : SIMbase P F) (fieldHolder : Option (SIMdependency F)) :
    List (String × List ICInfo) → Outcome (PatchAccess P F V)
  | [] => .returned true []
  | f :: rest =>
    match loopICs env sim fieldHolder (env.openFile f.1) [] f.2 with
    | .returned true log => (loopFiles env sim fieldHolder rest).prepend log
    | .returned false log => .returned false log
    | .outOfRange log => .outOfRange log

/-- The function `SIM::setInitialConditions(sim,fieldHolder)`: the value of
`result` it returns and the patch accesses it makes, or the accesses up to an
out-of-range one, after which it returns nothing. -/
def setInitialConditions (env : Env P V) (sim : SIMbase P F)
    (fieldHolder : Option (SIMdependency F)) : Outcome (PatchAccess P F V) :=
  loopFiles env sim fieldHolder sim.getICs

/-- There is, in some input file, an initial condition whose target field exists
in the field holder and whose `file_field` is the name of no entry of that
file. -/
def HasUnmatchedIC (env : Env P V) (sim : SIMbase P F)
    (fieldHolder : Option (SIMdependency F)) : Prop :=
  ∃ f ∈ sim.getICs, ∃ ic ∈ f.2, (targetField sim fieldHolder ic).isSome = true ∧
    ∀ e ∈ (env.openFile f.1).getEntries, e.name ≠ ic.file_field

/-- A serial simulator with one patch (number 7) and the field `u1`; global
patch `k` has local index `k`; `readPatch` gives a patch exactly for a non-empty
string.  One file `ic.hdf5` with the initial condition `u` at level 0, read
from the file field `disp`. -/
def sampleSim : SIMbase Nat Nat where
  dep := { getField := fun s => if s == "u1" then some 100 else none }
  getICs := [("ic.hdf5", [{ sim_level := 0, file_level := 0, sim_field := "u",
                            file_field := "disp" }])]
  readPatch := fun s i => if s.isEmpty then none else some (i.toNat + 50)
  getLocalPatchIndex := fun k => k
  getFEModel := [7]

/-- Readers of a sound file: one entry `disp` on basis `b` with one patch. -/
def goodFile : Env Nat (List ℚ) where
  openFile := fun _ =>
    { getEntries := [{ name := "disp", basis := "b", patches := 1, components := 2 }]
      readString := fun _ => "patch data"
      readVector := fun _ _ _ => [1, 2] }
  evaluate := fun _ _ loc => loc

/-- Readers of a file whose basis dataset cannot be read (the string read is
empty), with the same XML description as `goodFile`. -/
def unreadableBasis : Env Nat (List ℚ) where
  openFile := fun _ =>
    { getEntries := [{ name := "disp", basis := "b", patches := 1, components := 2 }]
      readString := fun _ => ""
      readVector := fun _ _ _ => [1, 2] }
  evaluate := fun _ _ loc => loc

/-- Readers of a file that has no entry `disp`. -/
def noEntryFile : Env Nat (List ℚ) where
  openFile := fun _ =>
    { getEntries := [{ name := "pressure", basis := "b", patches := 1, components := 1 }]
      readString := fun _ => "patch data"
      readVector := fun _ _ _ => [1, 2] }
  evaluate := fun _ _ loc => loc

end SIM

/-! ## `Apps/Common/SIMCoupled.h`

The class template `SIMCoupled<T1,T2>` holds references to two solvers.  A
method of a solver is a function of the program state `W` (which contains both
solvers) returning its result and the new state; `TS` is `TimeStep`, `F` a field
handle (`utl::vector<double>*`, `none` for null). -/

/-- The methods of a solver class `T1` or `T2` that `SIMCoupled` calls for the
operations modelled here (the template requires them). -/
structure SubSim (W TS F : Type) where
  preprocess : W → Bool × W
  /-- Takes `TimeStep&`, so the time step is returned too. -/
  advanceStep : TS → W → Bool × TS × W
  /-- Takes `TimeStep&`, so the time step is returned too. -/
  solveStep : TS → W → Bool × TS × W
  /-- Takes `const TimeStep&` and `int& nBlock`; `nBlock` is returned too. -/
  saveStep : TS → Int → W → Bool × Int × W
  /-- Takes `const TimeStep&`. -/
  init : TS → W → Bool × W
  hasIC : String → W → Bool × W
  getField : String → W → Option F × W

/-- Which solver reference a call went through. -/
inductive Sub where
  | S1
  | S2
  deriving DecidableEq, Repr

/-- A `SIMCoupled` object: the two references `S1` and `S2`. -/
structure SIMCoupled (W TS F : Type) where
  S1 : SubSim W TS F
  S2 : SubSim W TS F

namespace SIMCoupled

variable {W TS F : Type}

/-- `return S1.preprocess() && S2.preprocess();` with the calls made. -/
def preprocess (c : SIMCoupled W TS F) (w : W) : Bool × W × List Sub :=
  let r1 := c.S1.preprocess w
  if r1.1 then
    let r2 := c.S2.preprocess r1.2
    (r2.1, r2.2, [.S1, .S2])
  else (false, r1.2, [.S1])

/-- `return S1.advanceStep(tp) && S2.advanceStep(tp);` with the calls made. -/
def advanceStep (c : SIMCoupled W TS F) (tp : TS) (w : W) : Bool × TS × W × List Sub :=
  let r1 := c.S1.advanceStep tp w
  if r1.1 then
    let r2 := c.S2.advanceStep r1.2.1 r1.2.2
    (r2.1, r2.2.1, r2.2.2, [.S1, .S2])
  else (false, r1.2.1, r1.2.2, [.S1])

/-- `return S1.solveStep(tp) && S2.solveStep(tp);` with the calls made. -/
def solveStep (c : SIMCoupled W TS F) (tp : TS) (w : W) : Bool × TS × W × List Sub :=
  let r1 := c.S1.solveStep tp w
  if r1.1 then
    let r2 := c.S2.solveStep r1.2.1 r1.2.2
    (r2.1, r2.2.1, r2.2.2, [.S1, .S2])
  else (false, r1.2.1, r1.2.2, [.S1])

/-- `return S2.saveStep(tp,nBlock) && S1.saveStep(tp,nBlock);` with the calls
made. -/
def saveStep (c : SIMCoupled W TS F) (tp : TS) (nBlock : Int) (w : W) :
    Bool × Int × W × List Sub :=
  let r2 := c.S2.saveStep tp nBlock w
  if r2.1 then
    let r1 := c.S1.saveStep tp r2.2.1 r2.2.2
    (r1.1, r1.2.1, r1.2.2, [.S2, .S1])
  else (false, r2.2.1, r2.2.2, [.S2])

/-- `return S1.init(tp) && S2.init(tp);` with the calls made. -/
def init (c : SIMCoupled W TS F) (tp : TS) (w : W) : Bool × W × List Sub :=
  let r1 := c.S1.init tp w
  if r1.1 then
    let r2 := c.S2.init tp r1.2
    (r2.1, r2.2, [.S1, .S2])
  else (false, r1.2, [.S1])

/-- `return S1.hasIC(name) || S2.hasIC(name);`. -/
def hasIC (c : SIMCoupled W TS F) (name : String) (w : W) : Bool × W :=
  let r1 := c.S1.hasIC name w
  if r1.1 then (true, r1.2)
  else c.S2.hasIC name r1.2

/-- `result = S1.getField(name); if (!result) result = S2.getField(name);
return result;`. -/
def getField (c : SIMCoupled W TS F) (name : String) (w : W) : Option F × W :=
  let r1 := c.S1.getField name w
  match r1.1 with
  | some f => (some f, r1.2)
  | none => c.S2.getField name r1.2

/-- A solver over a pair of counters: every operation succeeds when the time
step is at most `limit`, and counts the call in the slot `slot` of the state;
it holds the single field `fld` under the name `name`. -/
def counting (slot : Bool) (limit : Nat) (name : String) (fld : Nat) :
    SubSim (Nat × Nat) Nat Nat where
  preprocess := fun w => (decide (0 < limit), if slot then (w.1, w.2 + 1) else (w.1 + 1, w.2))
  advanceStep := fun tp w =>
    (decide (tp ≤ limit), tp + 1, if slot then (w.1, w.2 + 1) else (w.1 + 1, w.2))
  solveStep := fun tp w =>
    (decide (tp ≤ limit), tp, if slot then (w.1, w.2 + 1) else (w.1 + 1, w.2))
  saveStep := fun tp nBlock w =>
    (decide (tp ≤ limit), nBlock + 1, if slot then (w.1, w.2 + 1) else (w.1 + 1, w.2))
  init := fun tp w => (decide (tp ≤ limit), if slot then (w.1, w.2 + 1) else (w.1 + 1, w.2))
  hasIC := fun s w => (s == name, w)
  getField := fun s w => (if s == name then some fld else none, w)

/-- Two counting solvers: `S1` accepts time steps up to 5 and holds `u`, `S2`
accepts time steps up to 3 and holds `u` and nothing else. -/
def sampleCoupled : SIMCoupled (Nat × Nat) Nat Nat where
  S1 := counting false 5 "u" 11
  S2 := counting true 3 "u" 22

end SIMCoupled

/-! ## Theorems: the Integrand contract -/

section IntegrandContract

variable {S LI FE MxFE TD V3 : Type}

/-- C1: for an integrand class that overrides only the stationary evaluators
(the time-dependent `evalInt` and `evalBou` slots are not overridden), the
time-dependent `evalInt` and `evalBou` return the flag and the accumulator
state of the stationary overloads called with the same accumulator, point
data, position and normal; hence the result is the same for every time. -/
theorem evalInt_evalBou_forward_to_stationary (I : Integrand S LI FE MxFE TD V3)
    (hInt : I.evalIntTimeOv = none) (hBou : I.evalBouTimeOv = none)
    (self : S) (elmInt : LI) (fe : FE) (time : TD) (X normal : V3) :
    I.evalInt self elmInt fe time X = I.evalIntStat self elmInt fe X ∧
    I.evalBou self elmInt fe time X normal = I.evalBouStat self elmInt fe X normal ∧
    ∀ time2 : TD,
      I.evalInt self elmInt fe time2 X = I.evalInt self elmInt fe time X ∧
      I.evalBou self elmInt fe time2 X normal = I.evalBou self elmInt fe time X normal := by
  simp [Integrand.evalInt, Integrand.evalBou, hInt, hBou]

/-- Witness of C1 on the sample stationary integrand. -/
theorem evalInt_evalBou_forward_to_stationary_witness :
    sampleStationary.evalIntTimeOv = none ∧ sampleStationary.evalBouTimeOv = none ∧
    sampleStationary.evalInt 3 10 2 7 1 = sampleStationary.evalIntStat 3 10 2 1 ∧
    sampleStationary.evalBou 3 10 2 7 1 5 = sampleStationary.evalBouStat 3 10 2 1 5 ∧
    sampleStationary.evalIntStat 3 10 2 1 = (true, 17) ∧
    sampleStationary.evalBouStat 3 10 2 1 5 = (true, 25) :=
  ⟨rfl, rfl,
   (evalInt_evalBou_forward_to_stationary sampleStationary rfl rfl 3 10 2 7 1 5).1,
   (evalInt_evalBou_forward_to_stationary sampleStationary rfl rfl 3 10 2 7 1 5).2.1,
   by decide, by decide⟩

/-- C2: for an integrand class that does not override the time-dependent
mixed-field evaluators, `evalIntMx` and `evalBouMx` with a time argument return
exactly the flag and accumulator state of the stationary `evalIntMx` and
`evalBouMx`, for every time value. -/
theorem evalIntMx_evalBouMx_forward_to_stationary (I : Integrand S LI FE MxFE TD V3)
    (hInt : I.evalIntMxTimeOv = none) (hBou : I.evalBouMxTimeOv = none)
    (self : S) (elmInt : LI) (fe : MxFE) (time : TD) (X normal : V3) :
    I.evalIntMx self elmInt fe time X = I.evalIntMxStat self elmInt fe X ∧
    I.evalBouMx self elmInt fe time X normal = I.evalBouMxStat self elmInt fe X normal ∧
    ∀ time2 : TD,
      I.evalIntMx self elmInt fe time2 X = I.evalIntMx self elmInt fe time X ∧
      I.evalBouMx self elmInt fe time2 X normal = I.evalBouMx self elmInt fe time X normal := by
  simp [Integrand.evalIntMx, Integrand.evalBouMx, hInt, hBou]

/-- Witness of C2 on the sample stationary integrand. -/
theorem evalIntMx_evalBouMx_forward_to_stationary_witness :
    sampleStationary.evalIntMxTimeOv = none ∧ sampleStationary.evalBouMxTimeOv = none ∧
    sampleStationary.evalIntMx 3 10 (2, 4) 7 1 = sampleStationary.evalIntMxStat 3 10 (2, 4) 1 ∧
    sampleStationary.evalBouMx 3 10 (2, 4) 7 1 5 =
      sampleStationary.evalBouMxStat 3 10 (2, 4) 1 5 ∧
    sampleStationary.evalIntMxStat 3 10 (2, 4) 1 = (true, 29) ∧
    sampleStationary.evalBouMxStat 3 10 (2, 4) 1 5 = (true, 25) :=
  ⟨rfl, rfl,
   (evalIntMx_evalBouMx_forward_to_stationary sampleStationary rfl rfl 3 10 (2, 4) 7 1 5).1,
   (evalIntMx_evalBouMx_forward_to_stationary sampleStationary rfl rfl 3 10 (2, 4) 7 1 5).2.1,
   by decide, by decide⟩

/-- C3: for an integrand class that does not override the mixed-basis
`getLocalIntegral`, the call with `nen1, nen2, iEl, neumann` returns exactly
what the single-basis call with `nen1, iEl, neumann` returns, so the result
does not depend on `nen2`. -/
theorem getLocalIntegral_mixed_forwards (I : Integrand S LI FE MxFE TD V3)
    (h : I.getLocalIntegral2 = none)
    (self : S) (nen1 nen2 iEl : Nat) (neumann : Bool) :
    I.getLocalIntegralMx self nen1 nen2 iEl neumann =
      I.getLocalIntegral self nen1 iEl neumann ∧
    ∀ nen2b : Nat, I.getLocalIntegralMx self nen1 nen2b iEl neumann =
      I.getLocalIntegralMx self nen1 nen2 iEl neumann := by
  simp [Integrand.getLocalIntegralMx, h]

/-- Witness of C3 on the sample stationary integrand. -/
theorem getLocalIntegral_mixed_forwards_witness :
    sampleStationary.getLocalIntegral2 = none ∧
    sampleStationary.getLocalIntegralMx 3 4 9 12 true =
      sampleStationary.getLocalIntegral 3 4 12 true ∧
    sampleStationary.getLocalIntegral 3 4 12 true = some (-12) :=
  ⟨rfl, (getLocalIntegral_mixed_forwards sampleStationary rfl 3 4 9 12 true).1, by decide⟩

/-- C4: when `reducedInt` is not overridden, it returns false and leaves the
accumulator unchanged, for every accumulator, point data and position. -/
theorem reducedInt_default_false (I : Integrand S LI FE MxFE TD V3)
    (h : I.reducedIntOv = none) (self : S) (elmInt : LI) (fe : FE) (X : V3) :
    I.reducedInt self elmInt fe X = (false, elmInt) := by
  simp [Integrand.reducedInt, h]

/-- Witness of C4 on the sample stationary integrand. -/
theorem reducedInt_default_false_witness :
    sampleStationary.reducedIntOv = none ∧
    sampleStationary.reducedInt 3 10 2 1 = (false, 10) :=
  ⟨rfl, reducedInt_default_false sampleStationary rfl 3 10 2 1⟩

/-- C5: when `finalizeElement` is not overridden, it returns true and leaves
the accumulator (and the integrand object) unchanged, for every accumulator,
time value and sub-pass index, the default sub-pass 0 included. -/
theorem finalizeElement_default_true (I : Integrand S LI FE MxFE TD V3)
    (h : I.finalizeElementOv = none) (self : S) (elmInt : LI) (time : TD) (iGP : Nat) :
    I.finalizeElement self elmInt time iGP = (true, self, elmInt) ∧
    I.finalizeElement self elmInt time 0 = (true, self, elmInt) := by
  simp [Integrand.finalizeElement, h]

/-- Witness of C5 on the sample stationary integrand. -/
theorem finalizeElement_default_true_witness :
    sampleStationary.finalizeElementOv = none ∧
    sampleStationary.finalizeElement 3 10 7 2 = (true, 3, 10) ∧
    sampleStationary.finalizeElement 3 10 7 0 = (true, 3, 10) :=
  ⟨rfl, finalizeElement_default_true sampleStationary rfl 3 10 7 2⟩

end IntegrandContract

/-- A flag that is one of the masked flags tests positive, and only such a
flag does: the step for one more flag OR-ed into the mask. -/
theorem Traits.and_val_ne_zero_iff (g f : Traits) (hf : f ≠ .STANDARD) :
    g.val &&& f.val ≠ 0 ↔ g = f := by
  cases g <;> cases f <;> simp_all [Traits.val] <;> decide

/-- The test `type & FLAG` on an OR of two masks. -/
theorem Traits.or_and_eq_zero_iff (a b c : Nat) :
    (a ||| b) &&& c = 0 ↔ a &&& c = 0 ∧ b &&& c = 0 := by
  rw [Nat.and_distrib_right]
  constructor
  · intro h
    constructor
    · apply Nat.eq_of_testBit_eq
      intro i
      have := congrArg (fun n => Nat.testBit n i) h
      simp only [Nat.testBit_or, Nat.zero_testBit, Bool.or_eq_false_iff] at this
      simpa using this.1
    · apply Nat.eq_of_testBit_eq
      intro i
      have := congrArg (fun n => Nat.testBit n i) h
      simp only [Nat.testBit_or, Nat.zero_testBit, Bool.or_eq_false_iff] at this
      simpa using this.2
  · rintro ⟨h1, h2⟩
    simp [h1, h2]

/-- Folding more flags into a mask: a flag tests positive afterwards iff it
did before or is among the added flags. -/
theorem Traits.foldl_requested (fs : List Traits) (m : Nat) (f : Traits)
    (hf : f ≠ .STANDARD) :
    (fs.foldl (fun m g => m ||| g.val) m) &&& f.val ≠ 0 ↔ (m &&& f.val ≠ 0 ∨ f ∈ fs) := by
  induction fs generalizing m with
  | nil => simp
  | cons g gs ih =>
    have hg : ¬ (g.val &&& f.val = 0) ↔ g = f := Traits.and_val_ne_zero_iff g f hf
    rw [List.foldl_cons, ih, Ne, Traits.or_and_eq_zero_iff, not_and_or, hg, List.mem_cons]
    constructor
    · rintro ((h | h) | h)
      · exact Or.inl h
      · exact Or.inr (Or.inl h.symm)
      · exact Or.inr (Or.inr h)
    · rintro (h | h | h)
      · exact Or.inl (Or.inl h)
      · exact Or.inl (Or.inr h.symm)
      · exact Or.inr h

/-- C6: `getIntegrandType` is a capability bitmask.  Not overridden it returns
`STANDARD = 0`; the six capability flags are the distinct single bits
1, 2, 4, 8, 16, 32; for every collection `fs` of flags, the OR of the
collection tests positive for a capability flag `f` iff `f` is in the
collection, so two collections with equal masks request the same flags. -/
theorem getIntegrandType_capability_bitmask {S LI FE MxFE TD V3 : Type}
    (I : Integrand S LI FE MxFE TD V3) (hI : I.getIntegrandTypeOv = none) (self : S)
    (fs gs : List Traits) (f : Traits) (hf : f ≠ .STANDARD) :
    I.getIntegrandType self = 0 ∧ Traits.STANDARD.val = 0 ∧
    [Traits.SECOND_DERIVATIVES, .AVERAGE, .ELEMENT_CORNERS, .G_MATRIX, .ELEMENT_CENTER,
      .XO_ELEMENTS].map Traits.val = [2 ^ 0, 2 ^ 1, 2 ^ 2, 2 ^ 3, 2 ^ 4, 2 ^ 5] ∧
    (∀ a b : Traits, a.val = b.val → a = b) ∧
    (Traits.requested (Traits.mask fs) f = true ↔ f ∈ fs) ∧
    (Traits.mask fs = Traits.mask gs → (f ∈ fs ↔ f ∈ gs)) := by
  have key : ∀ l : List Traits, Traits.requested (Traits.mask l) f = true ↔ f ∈ l := by
    intro l
    have h := Traits.foldl_requested l 0 f hf
    simp only [Nat.zero_and, ne_eq, not_true_eq_false, false_or] at h
    simpa [Traits.requested, Traits.mask] using h
  refine ⟨by simp [Integrand.getIntegrandType, hI, Traits.val], rfl, rfl, ?_, key fs, ?_⟩
  · intro a b
    cases a <;> cases b <;> simp [Traits.val]
  · intro h
    rw [← key fs, ← key gs, h]

/-- Witness of C6: the sample integrand, two masks built from the same flags
in different orders, and the flag `G_MATRIX`. -/
theorem getIntegrandType_capability_bitmask_witness :
    sampleStationary.getIntegrandTypeOv = none ∧ Traits.G_MATRIX ≠ Traits.STANDARD ∧
    sampleStationary.getIntegrandType 3 = 0 ∧
    Traits.mask [.AVERAGE, .G_MATRIX] = 10 ∧
    (Traits.requested (Traits.mask [.AVERAGE, .G_MATRIX]) .G_MATRIX = true ↔
      Traits.G_MATRIX ∈ [Traits.AVERAGE, Traits.G_MATRIX]) :=
  ⟨rfl, by decide,
   (getIntegrandType_capability_bitmask sampleStationary rfl 3
      [.AVERAGE, .G_MATRIX] [.G_MATRIX, .AVERAGE] .G_MATRIX (by decide)).1,
   by decide,
   (getIntegrandType_capability_bitmask sampleStationary rfl 3
      [.AVERAGE, .G_MATRIX] [.G_MATRIX, .AVERAGE] .G_MATRIX (by decide)).2.2.2.2.1⟩

/-! ## Theorems: global norm reduction -/

namespace GlbNorm

/-- Adding no element values leaves a container as it is. -/
theorem addSlots_nil_right (v : List ℚ) : addSlots v [] = (v, []) := by
  cases v <;> rfl

/-- Adding element values keeps the number of slots of a container. -/
theorem addSlots_length (v es : List ℚ) : (addSlots v es).1.length = v.length := by
  induction v generalizing es with
  | nil => rfl
  | cons g gs ih =>
    cases es with
    | nil => rfl
    | cons e es => simp [addSlots, ih]

/-- The element values left over are those beyond the slots of the container. -/
theorem addSlots_snd (v es : List ℚ) : (addSlots v es).2 = es.drop v.length := by
  induction v generalizing es with
  | nil => rfl
  | cons g gs ih =>
    cases es with
    | nil => rfl
    | cons e es => simp [addSlots, ih]

/-- Two element contributions can be added to a container in either order. -/
theorem addSlots_comm (v e1 e2 : List ℚ) :
    (addSlots (addSlots v e1).1 e2).1 = (addSlots (addSlots v e2).1 e1).1 := by
  induction v generalizing e1 e2 with
  | nil => rfl
  | cons g gs ih =>
    cases e1 with
    | nil => simp [addSlots_nil_right]
    | cons a as =>
      cases e2 with
      | nil => simp [addSlots_nil_right]
      | cons b bs => simp [addSlots, ih as bs, add_right_comm]

/-- Two element contributions can be added to the global slots in either
order. -/
theorem addVectors_comm (V : List (List ℚ)) (e1 e2 : List ℚ) :
    addVectors (addVectors V e1) e2 = addVectors (addVectors V e2) e1 := by
  induction V generalizing e1 e2 with
  | nil => rfl
  | cons v vs ih =>
    simp only [addVectors, addSlots_snd, addSlots_length, addSlots_comm v e1 e2,
      ih (e1.drop v.length) (e2.drop v.length)]

/-- The accumulated values of a pass do not depend on the finalizing
operation the object was constructed with. -/
theorem assembleAll_myVals (op : FinalNormOp) (vec : List (List ℚ))
    (elms : List (List ℚ × Int)) :
    (assembleAll (create vec op) elms).myVals = (assembleAll (create vec .NONE) elms).myVals ∧
    (assembleAll (create vec op) elms).myOp = op := by
  induction elms generalizing vec with
  | nil => exact ⟨rfl, rfl⟩
  | cons e es ih => exact ih (addVectors vec e.1)

/-- C7: global norm reduction is order-independent.  For every list of
per-element norm contributions and every permutation of it, calling `assemble`
on the elements in the permuted order leaves the same accumulated global norm
values (the state before the finalizing operation is applied). -/
theorem assemble_order_independent (g : GlbNorm) (elms elms2 : List (List ℚ × Int))
    (h : elms.Perm elms2) :
    assembleAll g elms = assembleAll g elms2 ∧
    (assembleAll g elms).myVals = (assembleAll g elms2).myVals := by
  have e : assembleAll g elms = assembleAll g elms2 := by
    unfold assembleAll
    apply List.Perm.foldl_eq' h
    intro x _ y _ z
    simp [assemble, addVectors_comm z.myVals x.1 y.1]
  exact ⟨e, by rw [e]⟩

/-- Witness of C7: three element contributions over two containers, assembled
in two different orders. -/
theorem assemble_order_independent_witness :
    [(([1, 2, 3] : List ℚ), (1 : Int)), ([4, 5], 2), ([6], 3)].Perm
      [([4, 5], 2), ([1, 2, 3], 1), ([6], 3)] ∧
    assembleAll (create [[0, 0], [0]] .SQRT) [([1, 2, 3], 1), ([4, 5], 2), ([6], 3)] =
      assembleAll (create [[0, 0], [0]] .SQRT) [([4, 5], 2), ([1, 2, 3], 1), ([6], 3)] ∧
    (assembleAll (create [[0, 0], [0]] .SQRT) [([4, 5], 2), ([1, 2, 3], 1), ([6], 3)]).myVals =
      [[11, 7], [3]] :=
  ⟨(List.Perm.swap _ _ _).symm,
   (assemble_order_independent (create [[0, 0], [0]] .SQRT)
      [([1, 2, 3], 1), ([4, 5], 2), ([6], 3)] [([4, 5], 2), ([1, 2, 3], 1), ([6], 3)]
      (List.Perm.swap _ _ _).symm).1,
   by norm_num [assembleAll, assemble, create, addVectors, addSlots]⟩

/-- C8: accumulating the element values 1, 4 and 4 into one global slot gives
9 with the constructor's default operation "none" and 3 with "square root".
In general the content left by the destructor is the finalizing operation
applied once to each completed sum (the sums being those accumulated without
any finalizing operation); applying the square root to the three
contributions separately would give 1 + 2 + 2 = 5 instead. -/
theorem finalOp_applied_once_to_sum :
    destroy (assembleAll (createDefault [[0]]) [([1], 1), ([4], 2), ([4], 3)]) = [[9]] ∧
    destroy (assembleAll (create [[0]] .NONE) [([1], 1), ([4], 2), ([4], 3)]) = [[9]] ∧
    destroy (assembleAll (create [[0]] .SQRT) [([1], 1), ([4], 2), ([4], 3)]) = [[3]] ∧
    (∀ (op : FinalNormOp) (vec : List (List ℚ)) (elms : List (List ℚ × Int)),
      destroy (assembleAll (create vec op) elms) =
        (assembleAll (create vec .NONE) elms).myVals.map
          (fun v => v.map (applyFinalOp op))) ∧
    applyFinalOp .SQRT 1 + applyFinalOp .SQRT 4 + applyFinalOp .SQRT 4 = 5 := by
  have h1 : Rat.sqrt 1 = 1 := by
    rw [show (1 : ℚ) = 1 * 1 by norm_num, Rat.sqrt_eq]
    norm_num
  have h4 : Rat.sqrt 4 = 2 := by
    rw [show (4 : ℚ) = 2 * 2 by norm_num, Rat.sqrt_eq]
    norm_num
  have h9 : Rat.sqrt 9 = 3 := by
    rw [show (9 : ℚ) = 3 * 3 by norm_num, Rat.sqrt_eq]
    norm_num
  refine ⟨?_, ?_, ?_, ?_, ?_⟩
  · norm_num [destroy, assembleAll, assemble, createDefault, create, addVectors, addSlots,
      applyFinalOp]
  · norm_num [destroy, assembleAll, assemble, create, addVectors, addSlots, applyFinalOp]
  · norm_num [destroy, assembleAll, assemble, create, addVectors, addSlots, applyFinalOp, h9]
  · intro op vec elms
    unfold destroy
    rw [(assembleAll_myVals op vec elms).1, (assembleAll_myVals op vec elms).2]
  · norm_num [applyFinalOp, h1, h4]

end GlbNorm

/-! ## Theorems: DOF / constraint construction -/

namespace SAMpatch

/-- A set of constraints, each of which has a master that is the slave of a
constraint of the set, survives a round of the cycle test. -/
theorem dependentOnes_keeps (P : MPC → Prop) (cs : List MPC)
    (hclosed : ∀ c, P c → ∃ m ∈ c.masters, ∃ c2, P c2 ∧ c2.slave = m.1)
    (hin : ∀ c, P c → c ∈ cs) : ∀ c, P c → c ∈ dependentOnes cs := by
  intro c hc
  obtain ⟨m, hm, c2, hc2, hs⟩ := hclosed c hc
  simp only [dependentOnes, List.mem_filter, List.any_eq_true, beq_iff_eq]
  exact ⟨hin c hc, m, hm, c2, hin c2 hc2, hs⟩

/-- Such a set survives any number of rounds. -/
theorem eliminate_keeps (P : MPC → Prop) (n : Nat) (cs : List MPC)
    (hclosed : ∀ c, P c → ∃ m ∈ c.masters, ∃ c2, P c2 ∧ c2.slave = m.1)
    (hin : ∀ c, P c → c ∈ cs) : ∀ c, P c → c ∈ eliminate n cs := by
  induction n generalizing cs with
  | zero => exact hin
  | succ k ih => exact ih (dependentOnes cs) (dependentOnes_keeps P cs hclosed hin)

/-- A cycle in the constraint dependency graph makes the cycle test fail. -/
theorem acyclic_false_of_hasCycle (model : List ASMbase) (h : HasCycle model) :
    acyclic (allMPCs model) = false := by
  obtain ⟨d, hd⟩ := h
  let P : MPC → Prop := fun c =>
    c ∈ allMPCs model ∧ ∃ m ∈ c.masters, Relation.ReflTransGen (Depends model) m.1 d
  have step : ∀ a, Relation.ReflTransGen (Depends model) a d →
      ∃ c2, P c2 ∧ c2.slave = a := by
    intro a ha
    have hta : Relation.TransGen (Depends model) a d := by
      rcases Relation.reflTransGen_iff_eq_or_transGen.mp ha with h1 | h1
      · rw [← h1]; exact hd
      · exact h1
    obtain ⟨b, hab, hbd⟩ := Relation.TransGen.head'_iff.mp hta
    obtain ⟨c2, hc2, hs, hb⟩ := hab
    obtain ⟨m2, hm2, hm2b⟩ := List.mem_map.mp hb
    exact ⟨c2, ⟨hc2, m2, hm2, by rw [hm2b]; exact hbd⟩, hs⟩
  have hclosed : ∀ c, P c → ∃ m ∈ c.masters, ∃ c2, P c2 ∧ c2.slave = m.1 := by
    rintro c ⟨_, m, hm, hmd⟩
    exact ⟨m, hm, step m.1 hmd⟩
  obtain ⟨c0, hc0, _⟩ := step d Relation.ReflTransGen.refl
  have hmem : c0 ∈ eliminate (allMPCs model).length (allMPCs model) :=
    eliminate_keeps P _ _ hclosed (fun c hc => hc.1) c0 hc0
  unfold acyclic
  cases hE : eliminate (allMPCs model).length (allMPCs model) with
  | nil => rw [hE] at hmem; exact absurd hmem (List.not_mem_nil c0)
  | cons x xs => rfl

/-- The model of `init` is not one that always fails: on the two-patch model
with a chain of constraints and no cycle it succeeds, with node 2 shared. -/
theorem init_chainModel_succeeds :
    (init empty chainModel 0).1 = true ∧
    (init empty chainModel 0).2.minex = [1, 2, 3] ∧
    (init empty chainModel 0).2.mmnpc = [[1, 2, 3, 4], [5, 6, 3, 4]] ∧
    (init empty chainModel 0).2.madof = [1, 3, 5, 7] ∧
    (init empty chainModel 0).2.msc =
      [.free, .prescribed, .constrained, .free, .constrained, .free] ∧
    (init empty chainModel 0).2.ceqs.map (fun q => (q.1, q.2.2.map (fun t => t.1))) =
      [(3, [1]), (5, [3, 1])] := by
  decide

/-- C9: DOF/constraint construction rejects a cyclic constraint.  For every
patch list whose constraint dependency graph contains a cycle (some DOF
transitively depends on itself, as when A depends on B and B on A), `init`
returns failure, whatever the object held before and whatever the node-count
hint. -/
theorem init_rejects_cyclic_constraints (sam : SAM) (model : List ASMbase) (numNod : Nat)
    (h : HasCycle model) : (init sam model numNod).1 = false := by
  have hc := acyclic_false_of_hasCycle model h
  simp only [init, initNodeDofs, if_true]
  split
  · simp [initConstraintEqs, hc]
  · rfl

/-- Witness of C9: in `cyclicPatch` DOF (1,1) depends on (2,1) and (2,1) on
(1,1); `init` fails on it. -/
theorem init_rejects_cyclic_constraints_witness :
    HasCycle [cyclicPatch] ∧ (init empty [cyclicPatch] 0).1 = false :=
  have hAB : Depends [cyclicPatch] (1, 1) (2, 1) :=
    ⟨{ slave := (1, 1), c0 := 0, masters := [((2, 1), 1)] }, by simp [allMPCs, cyclicPatch],
      rfl, by simp⟩
  have hBA : Depends [cyclicPatch] (2, 1) (1, 1) :=
    ⟨{ slave := (2, 1), c0 := 0, masters := [((1, 1), 1)] }, by simp [allMPCs, cyclicPatch],
      rfl, by simp⟩
  have hcyc : HasCycle [cyclicPatch] :=
    ⟨(1, 1), Relation.TransGen.tail (Relation.TransGen.single hAB) hBA⟩
  ⟨hcyc, init_rejects_cyclic_constraints empty [cyclicPatch] 0 hcyc⟩

end SAMpatch

/-! ## Theorems: linear elasticity -/

namespace LinearElasticity

/-- One `evalInt` call adds the contribution `B^t * C * B * detJW` of the point
to the element stiffness matrix, leaves `C * B` in the work array, and leaves
the two tensor-forming methods of the object as they were. -/
theorem evalInt_adds_contribution {m n : Nat} {DN V3 VN : Type}
    (self : LinearElasticity m n DN V3) (EK : Matrix (Fin n) (Fin n) ℚ)
    (pt : ℚ × VN × DN × V3) :
    (evalInt self EK pt.1 pt.2.1 pt.2.2.1 pt.2.2.2).2.2 = EK + contribution self pt ∧
    (evalInt self EK pt.1 pt.2.1 pt.2.2.1 pt.2.2.2).2.1.CB =
      self.formCmatrix pt.2.2.2 * self.formBmatrix pt.2.2.1 ∧
    @contribution m n DN V3 VN (evalInt self EK pt.1 pt.2.1 pt.2.2.1 pt.2.2.2).2.1 =
      contribution self := by
  refine ⟨?_, rfl, rfl⟩
  simp only [evalInt, contribution, Matrix.mul_assoc]

/-- The contribution of a point is symmetric when the elastic tensor at the
point is. -/
theorem contribution_symmetric {m n : Nat} {DN V3 VN : Type}
    (self : LinearElasticity m n DN V3) (pt : ℚ × VN × DN × V3)
    (hC : (self.formCmatrix pt.2.2.2).transpose = self.formCmatrix pt.2.2.2) :
    (contribution self pt).transpose = contribution self pt := by
  simp only [contribution, Matrix.transpose_smul, Matrix.transpose_mul,
    Matrix.transpose_transpose, hC, Matrix.mul_assoc]

/-- Any number of `evalInt` calls add the sum of the contributions of the
points to the starting matrix. -/
theorem foldl_evalInt_sum {m n : Nat} {DN V3 VN : Type}
    (points : List (ℚ × VN × DN × V3))
    (st : LinearElasticity m n DN V3 × Matrix (Fin n) (Fin n) ℚ) :
    (points.foldl
      (fun st pt => (evalInt st.1 st.2 pt.1 pt.2.1 pt.2.2.1 pt.2.2.2).2) st).2 =
    st.2 + (points.map (contribution st.1)).sum := by
  induction points generalizing st with
  | nil => simp
  | cons pt rest ih =>
    have h := evalInt_adds_contribution st.1 st.2 pt
    rw [List.foldl_cons, ih, h.1, h.2.2, List.map_cons, List.sum_cons, add_assoc]

/-- A sum of symmetric matrices is symmetric. -/
theorem sum_symmetric {n : Nat} (ms : List (Matrix (Fin n) (Fin n) ℚ))
    (h : ∀ M ∈ ms, M.transpose = M) : ms.sum.transpose = ms.sum := by
  induction ms with
  | nil => simp
  | cons M rest ih =>
    rw [List.sum_cons, Matrix.transpose_add, h M (List.mem_cons_self _ _),
      ih (fun M2 h2 => h M2 (List.mem_cons_of_mem _ h2))]

/-- C13: the sequence initialize, evaluate, finalize for linear elasticity
gives a symmetric element stiffness matrix: starting from the fresh (zero)
matrix, after any number of `evalInt` calls the accumulated matrix is the sum
of the contributions `B^t * C * B * detJ * weight` of the integration points,
and with a symmetric elastic tensor `C` it equals its transpose. -/
theorem stiffness_symmetric {m n : Nat} {DN V3 VN : Type}
    (self : LinearElasticity m n DN V3)
    (hC : ∀ X, (self.formCmatrix X).transpose = self.formCmatrix X)
    (points : List (ℚ × VN × DN × V3)) :
    (integrateElement self points).2 = (points.map (contribution self)).sum ∧
    (integrateElement self points).2.transpose = (integrateElement self points).2 := by
  have hsum : (integrateElement self points).2 = (points.map (contribution self)).sum := by
    unfold integrateElement
    rw [foldl_evalInt_sum points (self, 0)]
    simp
  refine ⟨hsum, ?_⟩
  rw [hsum]
  apply sum_symmetric
  intro M hM
  obtain ⟨pt, _, rfl⟩ := List.mem_map.mp hM
  exact contribution_symmetric self pt (hC pt.2.2.2)

/-- Witness of C13: the sample tensor is symmetric; two integration points
with different gradient data and weights 1 and 2 give the contributions
`!![35, 50; 50, 72]` and `!![6, 2; 2, 4]`, the accumulated matrix
`!![41, 52; 52, 76]`, which is symmetric, and the work array holds `C * B` of
the last point. -/
theorem stiffness_symmetric_witness :
    (∀ X : Unit, (sample.formCmatrix X).transpose = sample.formCmatrix X) ∧
    (integrateElement sample
        [((1 : ℚ), (), !![1, 2; 3, 4], ()), (2, (), !![0, 1; 1, 0], ())]).2 =
      !![41, 52; 52, 76] ∧
    (integrateElement sample
        [((1 : ℚ), (), !![1, 2; 3, 4], ()), (2, (), !![0, 1; 1, 0], ())]).2.transpose =
      (integrateElement sample
        [((1 : ℚ), (), !![1, 2; 3, 4], ()), (2, (), !![0, 1; 1, 0], ())]).2 ∧
    (integrateElement sample
        [((1 : ℚ), (), !![1, 2; 3, 4], ()), (2, (), !![0, 1; 1, 0], ())]).1.CB =
      !![1, 2; 3, 1] :=
  have hC : ∀ X : Unit, (sample.formCmatrix X).transpose = sample.formCmatrix X := by
    intro X
    ext i j
    fin_cases i <;> fin_cases j <;> rfl
  ⟨hC,
   (stiffness_symmetric sample hC
      [((1 : ℚ), (), !![1, 2; 3, 4], ()), (2, (), !![0, 1; 1, 0], ())]).1.trans (by
        ext i j
        fin_cases i <;> fin_cases j <;>
          simp [contribution, sample, Matrix.mul_apply, Fin.sum_univ_two,
            Matrix.transpose_apply, Matrix.vecHead, Matrix.vecTail] <;> norm_num),
   (stiffness_symmetric sample hC _).2,
   by
     ext i j
     fin_cases i <;> fin_cases j <;>
       simp [integrateElement, evalInt, sample, Matrix.mul_apply, Fin.sum_univ_two]⟩

end LinearElasticity

/-! ## Theorems: initial conditions -/

namespace SIM

/-- An arithmetic result that is representable as `int` is held unchanged. -/
theorem wrapInt32_of_representable (x : Int) (h1 : -2147483648 ≤ x) (h2 : x ≤ 2147483647) :
    wrapInt32 x = x := by
  unfold wrapInt32
  omega

/-- C14 fails on the code at the level -2147483647: the claim gives the suffix
2147483648 (that is `k+1` for `k = 2147483647`, the decimal rendering of
`1 - sim_level`), but `-sim_level+1` overflows `int` and the name looked up is
`u-2147483648`. -/
theorem fieldName_overflow_counterexample :
    fieldName (ICInfo.mk (-2147483647) 0 "u" "disp") = "u-2147483648" ∧
    "u" ++ toString (1 - (-2147483647 : Int)) = "u2147483648" ∧
    "u" ++ toString (2147483647 + 1) = "u2147483648" ∧
    fieldName (ICInfo.mk (-2147483647) 0 "u" "disp") ≠
      "u" ++ toString (1 - (-2147483647 : Int)) := by
  decide

/-- C14 (amended): whenever `1 - sim_level` is representable as `int`
(`sim_level` from -2147483646 up to 2147483647), the name under which the
target field of an initial condition is looked up is the simulator field name
followed by the decimal rendering of `1 - sim_level`: level 0 gives the suffix
"1", level -1 the suffix "2", and level `-k` with `k` up to 2147483646 the
suffix `k+1`; the lookup is made on `fieldHolder`, or on the simulator itself
when `fieldHolder` is null. -/
theorem fieldName_suffix_and_holder {P F : Type} (sim : SIMbase P F) (h : SIMdependency F)
    (ic : ICInfo) (k : Nat) (flevel : Int) (sfield ffield : String)
    (hlo : -2147483646 ≤ ic.sim_level) (hhi : ic.sim_level ≤ 2147483647)
    (hk : k ≤ 2147483646) :
    fieldName ic = ic.sim_field ++ toString (1 - ic.sim_level) ∧
    fieldName { sim_level := 0, file_level := flevel, sim_field := sfield,
                file_field := ffield } = sfield ++ "1" ∧
    fieldName { sim_level := -1, file_level := flevel, sim_field := sfield,
                file_field := ffield } = sfield ++ "2" ∧
    fieldName { sim_level := -(k : Int), file_level := flevel, sim_field := sfield,
                file_field := ffield } = sfield ++ toString (k + 1) ∧
    targetField sim (some h) ic = h.getField (fieldName ic) ∧
    targetField sim none ic = sim.dep.getField (fieldName ic) := by
  refine ⟨?_, rfl, rfl, ?_, rfl, rfl⟩
  · have e1 : wrapInt32 (-ic.sim_level) = -ic.sim_level :=
      wrapInt32_of_representable _ (by omega) (by omega)
    have e2 : wrapInt32 (-ic.sim_level + 1) = 1 - ic.sim_level := by
      rw [wrapInt32_of_representable _ (by omega) (by omega)]
      ring
    simp only [fieldName, e1, e2]
  · have e1 : wrapInt32 (-(-(k : Int))) = (k : Int) := by
      rw [wrapInt32_of_representable _ (by omega) (by omega)]
      ring
    have e2 : wrapInt32 ((k : Int) + 1) = ((k + 1 : Nat) : Int) := by
      rw [wrapInt32_of_representable _ (by omega) (by omega)]
      push_cast
      ring
    simp only [fieldName, e1, e2]
    rfl

/-- Witness of C14 (amended): level -2 is in range and gives the suffix 3. -/
theorem fieldName_suffix_and_holder_witness :
    (-2147483646 : Int) ≤ -2 ∧ (-2 : Int) ≤ 2147483647 ∧ (2 : Nat) ≤ 2147483646 ∧
    fieldName (ICInfo.mk (-2) 0 "u" "disp") = "u" ++ toString (1 - (-2 : Int)) ∧
    fieldName (ICInfo.mk (-2) 0 "u" "disp") = "u3" ∧
    targetField sampleSim none (ICInfo.mk 0 0 "u" "disp") = some 100 :=
  ⟨by decide, by decide, by decide,
   (fieldName_suffix_and_holder sampleSim sampleSim.dep (ICInfo.mk (-2) 0 "u" "disp") 2 0
      "u" "disp" (by decide) (by decide) (by decide)).1,
   by decide, by decide⟩

/-- Running a continuation after further accesses does not change the flag. -/
theorem Outcome.flag_prepend {α : Type} (l : List α) (o : Outcome α) :
    (o.prepend l).flag = o.flag := by
  cases o <;> rfl

/-- Running a continuation after further accesses puts them in front of the
log. -/
theorem Outcome.log_prepend {α : Type} (l : List α) (o : Outcome α) :
    (o.prepend l).log = l ++ o.log := by
  cases o <;> rfl

/-- The initial condition has its target field and no entry of its name. -/
theorem findEntry_none_iff (entries : List Entry) (ic : ICInfo) :
    findEntry entries ic = none ↔ ∀ e ∈ entries, e.name ≠ ic.file_field := by
  simp [findEntry, List.find?_eq_none]

/-- When every access of the loop over the initial conditions of one file is in
range, the loop returns, and it returns false exactly when one of the
conditions has its target field and no entry of its name. -/
theorem loopICs_result {P F V : Type} (env : Env P V) (sim : SIMbase P F)
    (fieldHolder : Option (SIMdependency F)) (rd : FileReaders V)
    (ics : List ICInfo) (basis : List (String × List P))
    (hsafe : ∀ a ∈ (loopICs env sim fieldHolder rd basis ics).log, a.inRange = true) :
    ∃ b, (loopICs env sim fieldHolder rd basis ics).flag = some b ∧
      (b = false ↔ ∃ ic ∈ ics, (targetField sim fieldHolder ic).isSome = true ∧
        ∀ e ∈ rd.getEntries, e.name ≠ ic.file_field) := by
  induction ics generalizing basis with
  | nil => exact ⟨true, rfl, by simp⟩
  | cons ic rest ih =>
    cases hf : targetField sim fieldHolder ic with
    | none =>
      simp only [loopICs, hf] at hsafe ⊢
      obtain ⟨b, hb, hiff⟩ := ih basis hsafe
      exact ⟨b, hb, by simp [hiff, hf]⟩
    | some field =>
      cases he : findEntry rd.getEntries ic with
      | none =>
        refine ⟨false, by simp [loopICs, hf, he, Outcome.flag], ?_⟩
        simp only [true_iff]
        exact ⟨ic, List.mem_cons_self _ _, by simp [hf], (findEntry_none_iff _ _).mp he⟩
      | some e =>
        have hmem : e ∈ rd.getEntries := List.mem_of_find?_eq_some he
        have hname : e.name = ic.file_field := by
          have := List.find?_some he
          simpa using this
        have hrest : (∃ ic2 ∈ ic :: rest, (targetField sim fieldHolder ic2).isSome = true ∧
              ∀ e ∈ rd.getEntries, e.name ≠ ic2.file_field) ↔
            ∃ ic2 ∈ rest, (targetField sim fieldHolder ic2).isSome = true ∧
              ∀ e ∈ rd.getEntries, e.name ≠ ic2.file_field := by
          simp only [List.mem_cons, exists_eq_or_imp]
          constructor
          · rintro (h | h)
            · exact absurd hname (h.2 e hmem)
            · exact h
          · intro h
            exact Or.inr h
        simp only [loopICs, hf, he] at hsafe ⊢
        split at hsafe
        · rename_i hall
          rw [if_pos hall, Outcome.flag_prepend]
          rw [Outcome.log_prepend] at hsafe
          obtain ⟨b, hb, hiff⟩ := ih _ (fun a ha => hsafe a (List.mem_append_right _ ha))
          exact ⟨b, hb, hiff.trans hrest.symm⟩
        · rename_i hall
          exact absurd (List.all_eq_true.mpr (fun a ha => hsafe a ha)) hall

/-- When the loop over the initial conditions of one file returns, every access
it made was in range. -/
theorem loopICs_returned_inRange {P F V : Type} (env : Env P V) (sim : SIMbase P F)
    (fieldHolder : Option (SIMdependency F)) (rd : FileReaders V)
    (ics : List ICInfo) (basis : List (String × List P)) (b : Bool)
    (hret : (loopICs env sim fieldHolder rd basis ics).flag = some b) :
    ∀ a ∈ (loopICs env sim fieldHolder rd basis ics).log, a.inRange = true := by
  induction ics generalizing basis with
  | nil => simp [loopICs, Outcome.log]
  | cons ic rest ih =>
    cases hf : targetField sim fieldHolder ic with
    | none =>
      simp only [loopICs, hf] at hret ⊢
      exact ih basis hret
    | some field =>
      cases he : findEntry rd.getEntries ic with
      | none => simp [loopICs, hf, he, Outcome.log]
      | some e =>
        simp only [loopICs, hf, he] at hret ⊢
        split at hret
        · rename_i hall
          rw [if_pos hall, Outcome.log_prepend]
          rw [Outcome.flag_prepend] at hret
          intro a ha
          rcases List.mem_append.mp ha with h1 | h1
          · exact List.all_eq_true.mp hall a h1
          · exact ih _ hret a h1
        · simp [Outcome.flag] at hret

/-- When every access of the loop over the files is in range, the loop
returns, and it returns false exactly when there is an unmatched initial
condition in one of the files. -/
theorem loopFiles_result {P F V : Type} (env : Env P V) (sim : SIMbase P F)
    (fieldHolder : Option (SIMdependency F)) (files : List (String × List ICInfo))
    (hsafe : ∀ a ∈ (loopFiles env sim fieldHolder files).log, a.inRange = true) :
    ∃ b, (loopFiles env sim fieldHolder files).flag = some b ∧
      (b = false ↔ ∃ f ∈ files, ∃ ic ∈ f.2, (targetField sim fieldHolder ic).isSome = true ∧
        ∀ e ∈ (env.openFile f.1).getEntries, e.name ≠ ic.file_field) := by
  induction files with
  | nil => exact ⟨true, rfl, by simp⟩
  | cons f rest ih =>
    simp only [loopFiles] at hsafe ⊢
    cases hr : loopICs env sim fieldHolder (env.openFile f.1) [] f.2 with
    | returned b1 log =>
      have hlog : ∀ a ∈ (loopICs env sim fieldHolder (env.openFile f.1) [] f.2).log,
          a.inRange = true :=
        loopICs_returned_inRange env sim fieldHolder _ f.2 [] b1 (by rw [hr]; rfl)
      obtain ⟨b2, hb2, hiff2⟩ := loopICs_result env sim fieldHolder _ f.2 [] hlog
      rw [hr] at hb2
      have hbb : b1 = b2 := by simpa [Outcome.flag] using hb2
      subst hbb
      cases b1 with
      | true =>
        rw [hr] at hsafe
        simp only [Outcome.log_prepend] at hsafe
        simp only [Outcome.flag_prepend]
        obtain ⟨b, hb, hiff⟩ := ih (fun a ha => hsafe a (List.mem_append_right _ ha))
        refine ⟨b, hb, hiff.trans ?_⟩
        simp only [List.mem_cons, exists_eq_or_imp]
        constructor
        · intro h
          exact Or.inr h
        · rintro (h | h)
          · exact absurd (hiff2.mpr h) (by simp)
          · exact h
      | false =>
        refine ⟨false, rfl, ?_⟩
        simp only [List.mem_cons, exists_eq_or_imp, true_iff]
        exact Or.inl (hiff2.mp rfl)
    | outOfRange log =>
      rw [hr] at hsafe
      have hlog : ∀ a ∈ (loopICs env sim fieldHolder (env.openFile f.1) [] f.2).log,
          a.inRange = true := by
        rw [hr]
        exact hsafe
      obtain ⟨b2, hb2, _⟩ := loopICs_result env sim fieldHolder _ f.2 [] hlog
      rw [hr] at hb2
      simp [Outcome.flag] at hb2

/-- When the loop over the files returns, every access it made was in range. -/
theorem loopFiles_returned_inRange {P F V : Type} (env : Env P V) (sim : SIMbase P F)
    (fieldHolder : Option (SIMdependency F)) (files : List (String × List ICInfo)) (b : Bool)
    (hret : (loopFiles env sim fieldHolder files).flag = some b) :
    ∀ a ∈ (loopFiles env sim fieldHolder files).log, a.inRange = true := by
  induction files with
  | nil => simp [loopFiles, Outcome.log]
  | cons f rest ih =>
    simp only [loopFiles] at hret ⊢
    cases hr : loopICs env sim fieldHolder (env.openFile f.1) [] f.2 with
    | returned b1 log =>
      have hlog : ∀ a ∈ (loopICs env sim fieldHolder (env.openFile f.1) [] f.2).log,
          a.inRange = true :=
        loopICs_returned_inRange env sim fieldHolder _ f.2 [] b1 (by rw [hr]; rfl)
      rw [hr] at hlog hret
      cases b1 with
      | true =>
        simp only [Outcome.flag_prepend] at hret
        simp only [Outcome.log_prepend]
        intro a ha
        rcases List.mem_append.mp ha with h1 | h1
        · exact hlog a h1
        · exact ih hret a h1
      | false => exact hlog
    | outOfRange log =>
      rw [hr] at hret
      simp [Outcome.flag] at hret

/-- The loop over the initial conditions does nothing when no target field
exists. -/
theorem loopICs_all_skipped {P F V : Type} (env : Env P V) (sim : SIMbase P F)
    (fieldHolder : Option (SIMdependency F)) (rd : FileReaders V)
    (ics : List ICInfo) (basis : List (String × List P))
    (h : ∀ ic ∈ ics, targetField sim fieldHolder ic = none) :
    loopICs env sim fieldHolder rd basis ics = .returned true [] := by
  induction ics with
  | nil => rfl
  | cons ic rest ih =>
    simp only [loopICs, h ic (List.mem_cons_self _ _)]
    exact ih (fun ic2 h2 => h ic2 (List.mem_cons_of_mem _ h2))

/-- C15 fails on the code: with the file whose basis dataset is unreadable
there is no unmatched initial condition, so the claim says the call returns
true; but the call makes an out-of-range access and returns nothing. -/
theorem setInitialConditions_no_return_counterexample :
    ¬ HasUnmatchedIC unreadableBasis sampleSim none ∧
    (setInitialConditions unreadableBasis sampleSim none).flag = none ∧
    (setInitialConditions unreadableBasis sampleSim none).flag ≠ some true := by
  refine ⟨?_, by decide, by decide⟩
  rintro ⟨f, hf, ic, hic, _, hno⟩
  simp only [sampleSim, List.mem_singleton] at hf
  subst hf
  simp only [List.mem_singleton] at hic
  subst hic
  exact hno { name := "disp", basis := "b", patches := 1, components := 2 }
    (by simp [unreadableBasis]) rfl

/-- C15 (amended): provided every patch access the call makes is in range,
`setInitialConditions` returns, and it returns false exactly when, in some
input file, there is an initial condition whose target field exists in the
field holder and whose `file_field` equals the name of no entry of that file's
XML description; in every other case it returns true.  Without any proviso: it
returns false only when there is such an initial condition, it returns true
when the simulator has no initial conditions, and initial conditions whose
target field is absent from the field holder are skipped without making the
call fail. -/
theorem setInitialConditions_result {P F V : Type} (env : Env P V) (sim : SIMbase P F)
    (fieldHolder : Option (SIMdependency F)) :
    ((∀ a ∈ (setInitialConditions env sim fieldHolder).log, a.inRange = true) →
      ((setInitialConditions env sim fieldHolder).flag = some false ↔
        HasUnmatchedIC env sim fieldHolder) ∧
      (¬ HasUnmatchedIC env sim fieldHolder →
        (setInitialConditions env sim fieldHolder).flag = some true)) ∧
    ((setInitialConditions env sim fieldHolder).flag = some false →
      HasUnmatchedIC env sim fieldHolder) ∧
    (sim.getICs = [] → setInitialConditions env sim fieldHolder = .returned true []) ∧
    ((∀ f ∈ sim.getICs, ∀ ic ∈ f.2, targetField sim fieldHolder ic = none) →
      setInitialConditions env sim fieldHolder = .returned true []) := by
  have main : (∀ a ∈ (setInitialConditions env sim fieldHolder).log, a.inRange = true) →
      ((setInitialConditions env sim fieldHolder).flag = some false ↔
        HasUnmatchedIC env sim fieldHolder) ∧
      (¬ HasUnmatchedIC env sim fieldHolder →
        (setInitialConditions env sim fieldHolder).flag = some true) := by
    intro hsafe
    obtain ⟨b, hb, hiff⟩ := loopFiles_result env sim fieldHolder sim.getICs hsafe
    have hb2 : (setInitialConditions env sim fieldHolder).flag = some b := hb
    constructor
    · rw [hb2]
      constructor
      · intro h
        exact hiff.mp (by simpa using h.symm)
      · intro h
        rw [hiff.mpr h]
    · intro hno
      rw [hb2]
      cases b with
      | true => rfl
      | false => exact absurd (hiff.mp rfl) hno
  refine ⟨main, ?_, ?_, ?_⟩
  · intro h
    exact (main (loopFiles_returned_inRange env sim fieldHolder sim.getICs false h)).1.mp h
  · intro h
    simp [setInitialConditions, h, loopFiles]
  · intro h
    unfold setInitialConditions
    generalize sim.getICs = files at h
    induction files with
    | nil => rfl
    | cons f rest ih =>
      have h1 := loopICs_all_skipped env sim fieldHolder (env.openFile f.1) f.2 []
        (h f (List.mem_cons_self _ _))
      simp only [loopFiles, h1, Outcome.prepend, List.nil_append]
      have h2 := ih (fun f2 h2 => h f2 (List.mem_cons_of_mem _ h2))
      rw [h2]

/-- The sample file without an entry `disp` has an unmatched initial condition
for the sample simulator. -/
theorem noEntryFile_hasUnmatchedIC : HasUnmatchedIC noEntryFile sampleSim none := by
  refine ⟨("ic.hdf5", [ICInfo.mk 0 0 "u" "disp"]), by simp [sampleSim],
    ICInfo.mk 0 0 "u" "disp", by simp, by decide, ?_⟩
  intro e he
  simp only [noEntryFile, List.mem_singleton] at he
  subst he
  decide

/-- With the sound file every patch access of the sample simulator is in
range: patch 1 is evaluated with the patch read for it. -/
theorem goodFile_accesses_inRange :
    (setInitialConditions goodFile sampleSim none).log.map
        (fun a => (a.patch, a.p, a.fe, a.basisPatch, a.inRange)) =
      [(1, 1, some 7, some 50, true)] := by
  decide

/-- Witness of C15 (amended): with the sound file every access is in range,
there is no unmatched initial condition and the call returns true; a file
without the entry makes no access and the call returns false; without initial
conditions the call returns true and does nothing. -/
theorem setInitialConditions_result_witness :
    (∀ a ∈ (setInitialConditions goodFile sampleSim none).log, a.inRange = true) ∧
    ¬ HasUnmatchedIC goodFile sampleSim none ∧
    (setInitialConditions goodFile sampleSim none).flag = some true ∧
    (∀ a ∈ (setInitialConditions noEntryFile sampleSim none).log, a.inRange = true) ∧
    HasUnmatchedIC noEntryFile sampleSim none ∧
    (setInitialConditions noEntryFile sampleSim none).flag = some false ∧
    setInitialConditions goodFile { sampleSim with getICs := [] } none = .returned true [] :=
  have hsafe : ∀ a ∈ (setInitialConditions goodFile sampleSim none).log, a.inRange = true := by
    decide
  have hsafe2 : ∀ a ∈ (setInitialConditions noEntryFile sampleSim none).log,
      a.inRange = true := by
    decide
  have hgood : (setInitialConditions goodFile sampleSim none).flag = some true := by decide
  have hnot : ¬ HasUnmatchedIC goodFile sampleSim none := fun h =>
    absurd (((setInitialConditions_result goodFile sampleSim none).1 hsafe).1.mpr h)
      (by rw [hgood]; simp)
  ⟨hsafe, hnot,
   ((setInitialConditions_result goodFile sampleSim none).1 hsafe).2 hnot,
   hsafe2, noEntryFile_hasUnmatchedIC,
   ((setInitialConditions_result noEntryFile sampleSim none).1 hsafe2).1.mpr
     noEntryFile_hasUnmatchedIC,
   (setInitialConditions_result goodFile { sampleSim with getICs := [] } none).2.2.1 rfl⟩

/-- C16 fails on the code: with a file whose basis dataset is unreadable,
`readPatch` returns null for patch 1, so the list loaded for the basis is
empty; the serial simulator gives patch 1 the local index `p = 1`, the patch is
evaluated, and position `p-1 = 0` of the loaded list does not exist (the FE
model position does).  The indexing `basis[entry.basis][p-1]` is out of
range. -/
theorem setInitialConditions_out_of_range_access :
    loadBasis sampleSim (unreadableBasis.openFile "ic.hdf5")
        { sim_level := 0, file_level := 0, sim_field := "u", file_field := "disp" }
        { name := "disp", basis := "b", patches := 1, components := 2 } = [] ∧
    sampleSim.getLocalPatchIndex (0 + 1) = 1 ∧
    (setInitialConditions unreadableBasis sampleSim none).log.map
        (fun a => (a.patch, a.p, a.fe, a.basisPatch, a.inRange)) =
      [(1, 1, some 7, none, false)] := by
  decide

end SIM

/-! ## Theorems: coupled simulators -/

namespace SIMCoupled

/-- C17: each of `preprocess`, `advanceStep`, `solveStep`, `init` and `saveStep`
returns true if and only if the operation of both sub-simulators returns true
(the second one run on what the first one left); when the first one fails the
second is not called at all: the calls made are the first one alone and the
state is the one the first one left.  The first is `S1` for `preprocess`,
`advanceStep`, `solveStep` and `init`, and `S2` for `saveStep`. -/
theorem both_must_succeed {W TS F : Type} (c : SIMCoupled W TS F) (tp : TS) (nBlock : Int)
    (w : W) :
    (((c.preprocess w).1 = true ↔
        (c.S1.preprocess w).1 = true ∧ (c.S2.preprocess (c.S1.preprocess w).2).1 = true) ∧
      ((c.S1.preprocess w).1 = false →
        (c.preprocess w).2.2 = [Sub.S1] ∧ (c.preprocess w).2.1 = (c.S1.preprocess w).2)) ∧
    (((c.advanceStep tp w).1 = true ↔
        (c.S1.advanceStep tp w).1 = true ∧
        (c.S2.advanceStep (c.S1.advanceStep tp w).2.1 (c.S1.advanceStep tp w).2.2).1 = true) ∧
      ((c.S1.advanceStep tp w).1 = false →
        (c.advanceStep tp w).2.2.2 = [Sub.S1] ∧
        (c.advanceStep tp w).2.2.1 = (c.S1.advanceStep tp w).2.2)) ∧
    (((c.solveStep tp w).1 = true ↔
        (c.S1.solveStep tp w).1 = true ∧
        (c.S2.solveStep (c.S1.solveStep tp w).2.1 (c.S1.solveStep tp w).2.2).1 = true) ∧
      ((c.S1.solveStep tp w).1 = false →
        (c.solveStep tp w).2.2.2 = [Sub.S1] ∧
        (c.solveStep tp w).2.2.1 = (c.S1.solveStep tp w).2.2)) ∧
    (((c.init tp w).1 = true ↔
        (c.S1.init tp w).1 = true ∧ (c.S2.init tp (c.S1.init tp w).2).1 = true) ∧
      ((c.S1.init tp w).1 = false →
        (c.init tp w).2.2 = [Sub.S1] ∧ (c.init tp w).2.1 = (c.S1.init tp w).2)) ∧
    (((c.saveStep tp nBlock w).1 = true ↔
        (c.S2.saveStep tp nBlock w).1 = true ∧
        (c.S1.saveStep tp (c.S2.saveStep tp nBlock w).2.1
          (c.S2.saveStep tp nBlock w).2.2).1 = true) ∧
      ((c.S2.saveStep tp nBlock w).1 = false →
        (c.saveStep tp nBlock w).2.2.2 = [Sub.S2] ∧
        (c.saveStep tp nBlock w).2.2.1 = (c.S2.saveStep tp nBlock w).2.2)) := by
  refine ⟨⟨?_, ?_⟩, ⟨?_, ?_⟩, ⟨?_, ?_⟩, ⟨?_, ?_⟩, ⟨?_, ?_⟩⟩
  · cases h : (c.S1.preprocess w).1 <;> simp [preprocess, h]
  · intro h; simp [preprocess, h]
  · cases h : (c.S1.advanceStep tp w).1 <;> simp [advanceStep, h]
  · intro h; simp [advanceStep, h]
  · cases h : (c.S1.solveStep tp w).1 <;> simp [solveStep, h]
  · intro h; simp [solveStep, h]
  · cases h : (c.S1.init tp w).1 <;> simp [init, h]
  · intro h; simp [init, h]
  · cases h : (c.S2.saveStep tp nBlock w).1 <;> simp [saveStep, h]
  · intro h; simp [saveStep, h]

/-- Witness of C17: at time step 6 the first solver of the sample fails
`advanceStep` and the second is not called (its counter stays 0); at time step 2
both succeed and both are called. -/
theorem both_must_succeed_witness :
    (sampleCoupled.S1.advanceStep 6 (0, 0)).1 = false ∧
    (sampleCoupled.advanceStep 6 (0, 0)).2.2.2 = [Sub.S1] ∧
    (sampleCoupled.advanceStep 6 (0, 0)).2.2.1 = (1, 0) ∧
    sampleCoupled.advanceStep 2 (0, 0) = (true, 4, (1, 1), [Sub.S1, Sub.S2]) :=
  have h : (sampleCoupled.S1.advanceStep 6 (0, 0)).1 = false := by decide
  ⟨h,
   ((both_must_succeed sampleCoupled 6 0 (0, 0)).2.1.2 h).1,
   ((both_must_succeed sampleCoupled 6 0 (0, 0)).2.1.2 h).2.trans (by decide),
   by decide⟩

/-- C18: `getField(name)` returns the field of `S1` whenever `S1` has one
(non-null) and otherwise the result of `S2` (null when neither has it), so `S1`
takes priority when both hold a field of that name; and `hasIC(name)` is true if
and only if `S1.hasIC(name)` or `S2.hasIC(name)` is true. -/
theorem getField_priority_and_hasIC {W TS F : Type} (c : SIMCoupled W TS F) (name : String)
    (w : W) :
    (∀ f, (c.S1.getField name w).1 = some f → (c.getField name w).1 = some f) ∧
    ((c.S1.getField name w).1 = none →
      c.getField name w = c.S2.getField name (c.S1.getField name w).2) ∧
    ((c.S1.getField name w).1 = none →
      (c.S2.getField name (c.S1.getField name w).2).1 = none →
      (c.getField name w).1 = none) ∧
    ((c.hasIC name w).1 = true ↔
      (c.S1.hasIC name w).1 = true ∨ (c.S2.hasIC name (c.S1.hasIC name w).2).1 = true) := by
  refine ⟨?_, ?_, ?_, ?_⟩
  · intro f h
    simp [getField, h]
  · intro h
    simp [getField, h]
  · intro h h2
    simp [getField, h, h2]
  · cases h : (c.S1.hasIC name w).1 <;> simp [hasIC, h]

/-- Witness of C18: both sample solvers hold a field `u`; the coupled lookup
gives the one of `S1`; a name neither holds gives null. -/
theorem getField_priority_and_hasIC_witness :
    (sampleCoupled.S1.getField "u" (0, 0)).1 = some 11 ∧
    (sampleCoupled.S2.getField "u" (0, 0)).1 = some 22 ∧
    (sampleCoupled.getField "u" (0, 0)).1 = some 11 ∧
    (sampleCoupled.getField "v" (0, 0)).1 = none :=
  ⟨by decide, by decide,
   (getField_priority_and_hasIC sampleCoupled "u" (0, 0)).1 11 (by decide),
   (getField_priority_and_hasIC sampleCoupled "v" (0, 0)).2.2.1 (by decide) (by decide)⟩

end SIMCoupled

end IFEM
